import Mathlib

/-!
Verification of the liquidity-mining market-maker and funding-rate-arbitrage
strategies.  Decimal values are modelled as exact rationals (`ℚ`); fallible
Decimal operations (division by zero raises in Python's default context) are
modelled with `Except Unit`.  Python list slices, which clamp and wrap
negative indices, are modelled explicitly by `pyIdx`/`pySlice`.
-/

namespace HB

/-- Python index normalization for slices on a list of length `len`:
a negative index counts from the end (clamped below at 0), a nonnegative
index is clamped above at `len`. -/
def pyIdx (len : ℕ) (a : ℤ) : ℕ :=
  if a < 0 then (len + a).toNat else min a.toNat len

/-- Python slice `l[a:b]` (step 1). -/
def pySlice {α : Type} (l : List α) (a b : ℤ) : List α :=
  (l.drop (pyIdx l.length a)).take (pyIdx l.length b - pyIdx l.length a)

/-- Length of Python `range(last, first, -step)` for `step > 0`. -/
def pyRangeLen (last first : ℤ) (step : ℕ) : ℕ :=
  if last > first then ((last - first - 1) / step).toNat + 1 else 0

/-- Python `range(last, first, -step)` as a list of integers. -/
def pyRangeDown (last first : ℤ) (step : ℕ) : List ℤ :=
  (List.range (pyRangeLen last first step)).map (fun t : ℕ => last - (t : ℤ) * step)

/-- Python `min(l)` for a nonempty list (0 as a junk value on `[]`). -/
def listMin (l : List ℚ) : ℚ :=
  match l with
  | [] => 0
  | x :: xs => xs.foldl min x

/-- Python `max(l)` for a nonempty list (0 as a junk value on `[]`). -/
def listMax (l : List ℚ) : ℚ :=
  match l with
  | [] => 0
  | x :: xs => xs.foldl max x

/-- `statistics.mean`: sum divided by length. -/
def listMean (l : List ℚ) : ℚ := l.sum / l.length

/-- The inner loop of `LiquidityMiningStrategy.update_volatility`: walk the
index list produced by `range(last_index, first_index, -volatility_interval)`,
slice `mid_prices[i - volatility_interval + 1 : i + 1]`, break on an empty
slice, and collect `(max - min) / min` per window.  A window whose minimum is
zero raises `decimal.DivisionByZero` / `InvalidOperation` in Python's default
context, modelled as `Except.error`. -/
def volLoop (mp : List ℚ) (interval : ℕ) : List ℤ → Except Unit (List ℚ)
  | [] => Except.ok []
  | i :: rest =>
    let prices := pySlice mp (i - interval + 1) (i + 1)
    if prices.isEmpty then Except.ok []
    else if listMin prices = 0 then Except.error ()
    else do
      let tail ← volLoop mp interval rest
      pure ((listMax prices - listMin prices) / listMin prices :: tail)

/-- `LiquidityMiningStrategy.update_volatility`, the per-market computation
on one mid-price buffer: `.ok none` is the NaN sentinel (empty `atr`),
`.ok (some v)` is `mean(atr)`, `.error ()` a raised Decimal exception. -/
def update_volatility (mp : List ℚ) (interval period : ℕ) :
    Except Unit (Option ℚ) := do
  let atr ← volLoop mp interval
    (pyRangeDown ((mp.length : ℤ) - 1)
      (max (((mp.length : ℤ) - 1) - interval * period) 0) interval)
  if atr.isEmpty then pure none else pure (some (listMean atr))

/-- The volatility windows as the spec describes them: consecutive windows of
length `interval`, walking backward from the newest sample, up to `period`
windows; window `j` holds samples `[len - (j+1)·interval, len - j·interval)`. -/
def specWindows (mp : List ℚ) (interval period : ℕ) : List (List ℚ) :=
  (List.range (min period (mp.length / interval))).map
    (fun j => (mp.drop (mp.length - (j + 1) * interval)).take interval)

/-- Range ratio `(max - min) / min` of one window. -/
def rangeRatio (w : List ℚ) : ℚ := (listMax w - listMin w) / listMin w

/-- One proposal leg: a (price, size) pair. -/
structure PriceSize where
  price : ℚ
  size : ℚ

/-- A per-market proposal: one buy and one sell leg. -/
structure Proposal where
  market : String
  buy : PriceSize
  sell : PriceSize

/-- A live limit order as the strategy sees it. -/
structure LimitOrder where
  trading_pair : String
  is_buy : Bool
  price : ℚ
  quantity : ℚ
  creation_time : ℚ

/-- A market with its `BASE-QUOTE` split (`market.split("-")` in the source)
and current mid price. -/
structure MarketInfo where
  market : String
  base : String
  quote : String
  mid_price : ℚ

/-- The liquidity-mining configuration fields used by the embedded code. -/
structure LMConfig where
  token : String
  order_amount : ℚ
  spread : ℚ
  volatility_to_spread_multiplier : ℚ
  max_spread : ℚ
  order_refresh_tolerance_pct : ℚ
  max_order_age : ℚ

/-- `LiquidityMiningStrategy.base_order_size`: the order amount converted to
base units at the given price (mid price when the price is zero). -/
def base_order_size (cfg : LMConfig) (m : MarketInfo) (price : ℚ) : ℚ :=
  if cfg.token = m.base then cfg.order_amount
  else if price = 0 then cfg.order_amount / m.mid_price
  else cfg.order_amount / price

/-- `LiquidityMiningStrategy.create_base_proposals_static`: widen the spread
by volatility when defined, cap at `max_spread` when positive, and quote
symmetric buy/sell legs around mid. -/
def create_base_proposals_static (cfg : LMConfig) (markets : List MarketInfo)
    (volatility : String → Option ℚ)
    (quantize_order_price : String → ℚ → ℚ) : List Proposal :=
  markets.map (fun m =>
    let spread1 := match volatility m.market with
      | none => cfg.spread
      | some v => max cfg.spread (v * cfg.volatility_to_spread_multiplier)
    let spread2 := if cfg.max_spread > 0 then min spread1 cfg.max_spread else spread1
    let buy_price := quantize_order_price m.market (m.mid_price * (1 - spread2))
    let buy_size := base_order_size cfg m buy_price
    let sell_price := quantize_order_price m.market (m.mid_price * (1 + spread2))
    let sell_size := base_order_size cfg m sell_price
    Proposal.mk m.market (PriceSize.mk buy_price buy_size)
      (PriceSize.mk sell_price sell_size))

/-- Market-band feed record returned by `MinerMarketBandDataFeed.get_spread`. -/
structure SpreadData where
  spread_bid : ℚ
  spread_ask : ℚ

/-- Python `str.lower()` (ASCII case folding, character by character). -/
def strLower (s : String) : String := String.mk (s.data.map Char.toLower)

/-- Python `str.upper()` (ASCII case folding, character by character). -/
def strUpper (s : String) : String := String.mk (s.data.map Char.toUpper)

/-- `MinerMarketBandDataFeed.miner_market`: the `(venue, market) → market_id`
lookup table hard-coded in the source, with the source's
`connector.lower()` / `trading_pair.upper()` key normalization. -/
def miner_market (connector trading_pair : String) : Option ℕ :=
  if strLower connector = "binance" then
    if strUpper trading_pair = "FIRO-USDT" then some 59
    else if strUpper trading_pair = "BIFI-USDT" then some 304
    else none
  else none

/-- `MinerMarketBandDataFeed.get_spread`: `None` when no `(venue, market)`
mapping exists; otherwise the HTTP fetch, whose failure paths also return
`None` (modelled by the `fetch` parameter). -/
def get_spread (connector trading_pair : String)
    (fetch : ℕ → Option SpreadData) : Option SpreadData :=
  match miner_market connector trading_pair with
  | none => none
  | some market_id => fetch market_id

/-- `LiquidityMiningStrategy.create_base_proposals_dynamic`: a proposal per
market for which the feed returned data; a market with no data is skipped
(the source only logs a warning for it). -/
def create_base_proposals_dynamic (cfg : LMConfig) (exchange_name : String)
    (markets : List MarketInfo) (fetch : ℕ → Option SpreadData)
    (quantize_order_price : String → ℚ → ℚ) : List Proposal :=
  markets.foldr (fun m acc =>
    match get_spread exchange_name m.market fetch with
    | some dat =>
      let bid_spread := dat.spread_bid * cfg.volatility_to_spread_multiplier
      let ask_spread := dat.spread_ask * cfg.volatility_to_spread_multiplier
      let buy_price := quantize_order_price m.market (m.mid_price * (1 - bid_spread))
      let buy_size := base_order_size cfg m buy_price
      let sell_price := quantize_order_price m.market (m.mid_price * (1 + ask_spread))
      let sell_size := base_order_size cfg m sell_price
      Proposal.mk m.market (PriceSize.mk buy_price buy_size)
        (PriceSize.mk sell_price sell_size) :: acc
    | none => acc) []

/-- `LiquidityMiningStrategy.total_port_value_in_token`, in the
token-is-the-common-quote case: the token balance plus each base balance
valued at mid. -/
def total_port_value_in_token (bals : String → ℚ) (token : String)
    (markets : List MarketInfo) : ℚ :=
  bals token + (markets.map (fun m => bals m.base * m.mid_price)).sum

/-- The equal per-market portion `portfolio_value / len(markets)` of
`create_budget_allocation`. -/
def market_portion (bals : String → ℚ) (token : String)
    (markets : List MarketInfo) : ℚ :=
  total_port_value_in_token bals token markets / markets.length

/-- `create_budget_allocation` (token-as-quote branch): the sell budget of a
market is its base balance. -/
def sell_budget_alloc (bals : String → ℚ) (m : MarketInfo) : ℚ := bals m.base

/-- `create_budget_allocation` (token-as-quote branch): the buy budget is
`portion - base_balance × mid` when positive, else the initial zero. -/
def buy_budget_alloc (bals : String → ℚ) (portion : ℚ) (m : MarketInfo) : ℚ :=
  if portion - bals m.base * m.mid_price > 0 then
    portion - bals m.base * m.mid_price
  else 0

/-- Modelled from the spec: `order_age` (`hummingbot.strategy.utils`, not
under src/) — an order's age is `now - creation_time` (§4.1 lists
`creation_time` on live orders; §4.6 compares ages against
`max_order_age`). -/
def order_age (o : LimitOrder) (now : ℚ) : ℚ := now - o.creation_time

/-- The per-side price check of `is_within_tolerance`: the source compares
the proposed price against the first live order of that side. -/
def tolViolated (tol proposed_price : ℚ) (side_orders : List LimitOrder) : Bool :=
  match side_orders with
  | [] => false
  | o :: _ => decide (|proposed_price - o.price| / o.price > tol)

/-- `LiquidityMiningStrategy.is_within_tolerance`. -/
def is_within_tolerance (tol : ℚ) (cur_orders : List LimitOrder)
    (p : Proposal) : Bool :=
  let cur_buy := cur_orders.filter (fun o => o.is_buy)
  let cur_sell := cur_orders.filter (fun o => !o.is_buy)
  if (!cur_buy.isEmpty && decide (p.buy.size ≤ 0))
      || (!cur_sell.isEmpty && decide (p.sell.size ≤ 0)) then false
  else if tolViolated tol p.buy.price cur_buy then false
  else if tolViolated tol p.sell.price cur_sell then false
  else true

/-- The spec's wording of within-tolerance (§4.6), for comparison with the
source's `is_within_tolerance`: for each side with a live order, the proposed
size on that side is positive and the relative price change from that side's
first live order is at most the tolerance. -/
def within_tolerance_spec (tol : ℚ) (cur_orders : List LimitOrder)
    (p : Proposal) : Prop :=
  (∀ o ∈ (cur_orders.filter (fun o => o.is_buy)).head?,
    0 < p.buy.size ∧ |p.buy.price - o.price| / o.price ≤ tol) ∧
  (∀ o ∈ (cur_orders.filter (fun o => !o.is_buy)).head?,
    0 < p.sell.size ∧ |p.sell.price - o.price| / o.price ≤ tol)

/-- The mutable state touched by `cancel_active_orders`: per-market refresh
timestamps plus the orders cancelled so far. -/
structure CancelState where
  refresh_times : String → ℚ
  cancelled : List LimitOrder

/-- The body of `cancel_active_orders` for one proposal: decide, then cancel
every current order of the market and stamp `refresh_times[order pair]`. -/
def cancel_body (tol max_order_age now : ℚ) (active : List LimitOrder)
    (s : CancelState) (p : Proposal) : CancelState :=
  let cur_orders := active.filter (fun o => o.trading_pair = p.market)
  let to_cancel :=
    if !cur_orders.isEmpty
        && cur_orders.any (fun o => decide (order_age o now > max_order_age)) then
      true
    else if decide (s.refresh_times p.market ≤ now) && !cur_orders.isEmpty
        && !is_within_tolerance tol cur_orders p then
      true
    else false
  if to_cancel then
    { refresh_times :=
        cur_orders.foldl
          (fun rt o => fun mk => if mk = o.trading_pair then now + 1/10 else rt mk)
          s.refresh_times
      cancelled := s.cancelled ++ cur_orders }
  else s

/-- `LiquidityMiningStrategy.cancel_active_orders` over the proposal list. -/
def cancel_active_orders (tol max_order_age now : ℚ) (active : List LimitOrder)
    (proposals : List Proposal) (refresh_times : String → ℚ) : CancelState :=
  proposals.foldl (cancel_body tol max_order_age now active)
    (CancelState.mk refresh_times [])

/-- Order side. -/
inductive TradeType where
  | BUY
  | SELL
deriving DecidableEq

/-- The budget maps mutated by `did_fill_order`. -/
structure Budgets where
  buy_budgets : String → ℚ
  sell_budgets : String → ℚ

/-- A confirmed own-trade fill event (`OrderFilledEvent` fields used). -/
structure OrderFilledEvt where
  trading_pair : String
  trade_type : TradeType
  amount : ℚ
  price : ℚ

/-- `LiquidityMiningStrategy.did_fill_order` (the tracked-order branch):
budget updates for a confirmed own fill. -/
def did_fill_order (b : Budgets) (e : OrderFilledEvt) : Budgets :=
  if e.trade_type = TradeType.BUY then
    Budgets.mk
      (fun m => if m = e.trading_pair then
        b.buy_budgets m - e.amount * e.price else b.buy_budgets m)
      (fun m => if m = e.trading_pair then
        b.sell_budgets m + e.amount else b.sell_budgets m)
  else
    Budgets.mk
      (fun m => if m = e.trading_pair then
        b.buy_budgets m + e.amount * e.price else b.buy_budgets m)
      (fun m => if m = e.trading_pair then
        b.sell_budgets m - e.amount else b.sell_budgets m)

/-- Funding info for one (venue, market): the current rate. -/
structure FundingInfo where
  rate : ℚ

/-- `FundingRateArbitrage.funding_payment_interval_map` with the source's
`.get(connector_name, 60 * 60 * 8)` default. -/
def funding_payment_interval_map (connector_name : String) : ℚ :=
  if connector_name = "binance_perpetual" then 60 * 60 * 8
  else if connector_name = "hyperliquid_perpetual" then 60 * 60 * 1
  else 60 * 60 * 8

/-- `FundingRateArbitrage.funding_profitability_interval = 60 * 60 * 24`. -/
def funding_profitability_interval : ℚ := 60 * 60 * 24

/-- `FundingRateArbitrage.get_normalized_funding_rate_in_seconds`.  The
report is an insertion-ordered association list (a Python dict); lookups in
the source always hit existing keys, a missing key here yields rate 0. -/
def get_normalized_funding_rate_in_seconds
    (funding_info_report : List (String × FundingInfo))
    (connector_name : String) : ℚ :=
  ((funding_info_report.lookup connector_name).getD (FundingInfo.mk 0)).rate
    / funding_payment_interval_map connector_name

/-- The best-combination record built by
`get_most_profitable_combination`. -/
structure Combination where
  connector_1 : String
  connector_2 : String
  trade_side : TradeType
  funding_rate_diff : ℚ

/-- One iteration of the nested loops of
`get_most_profitable_combination`. -/
def gmpc_step (report : List (String × FundingInfo))
    (s : Option Combination × ℚ) (pr : String × String) :
    Option Combination × ℚ :=
  if pr.1 ≠ pr.2 then
    let rate_connector_1 := get_normalized_funding_rate_in_seconds report pr.1
    let rate_connector_2 := get_normalized_funding_rate_in_seconds report pr.2
    let funding_rate_diff :=
      |rate_connector_1 - rate_connector_2| * funding_profitability_interval
    if funding_rate_diff > s.2 then
      (some (Combination.mk pr.1 pr.2
        (if rate_connector_1 < rate_connector_2 then TradeType.BUY
         else TradeType.SELL) funding_rate_diff), funding_rate_diff)
    else s
  else s

/-- All ordered pairs in dict-iteration order (the nested
`for connector_1 in report: for connector_2 in report:`). -/
def allPairs (keys : List String) : List (String × String) :=
  keys.flatMap (fun c1 => keys.map (fun c2 => (c1, c2)))

/-- `FundingRateArbitrage.get_most_profitable_combination`: best-so-far scan
with strict improvement over an initial `highest_profitability = 0`. -/
def get_most_profitable_combination
    (report : List (String × FundingInfo)) : Option Combination :=
  ((allPairs (report.map Prod.fst)).foldl (gmpc_step report) (none, 0)).1

/-- Invariant of the best-so-far scan of `get_most_profitable_combination`:
the running best (when present) achieves the running highest profitability,
which is positive, and is a valid distinct pair of the report with the
side rule applied. -/
def gmpcInv (report : List (String × FundingInfo)) (keys : List String)
    (s : Option Combination × ℚ) : Prop :=
  (s.1 = none → s.2 = 0) ∧
  ∀ c, s.1 = some c →
    c.funding_rate_diff = s.2 ∧ 0 < s.2 ∧
    c.connector_1 ∈ keys ∧ c.connector_2 ∈ keys ∧
    c.connector_1 ≠ c.connector_2 ∧
    c.funding_rate_diff
      = |get_normalized_funding_rate_in_seconds report c.connector_1
          - get_normalized_funding_rate_in_seconds report c.connector_2|
        * funding_profitability_interval ∧
    c.trade_side
      = (if get_normalized_funding_rate_in_seconds report c.connector_1
            < get_normalized_funding_rate_in_seconds report c.connector_2
          then TradeType.BUY else TradeType.SELL)

/-- Market-data inputs of `get_current_profitability_after_fees`: result
price of `get_price_for_quote_volume` per (connector, is_buy), and the taker
fee percent per connector (the source hard-codes `TradeType.BUY` and OPEN for
the fee estimate on both legs). -/
structure FeePrices where
  price_for_quote_volume : String → Bool → ℚ
  taker_fee_percent : String → ℚ

/-- `FundingRateArbitrage.get_current_profitability_after_fees`. -/
def get_current_profitability_after_fees (mdp : FeePrices)
    (connector_1 connector_2 : String) (side : TradeType) : ℚ :=
  let connector_1_price :=
    mdp.price_for_quote_volume connector_1 (decide (side = TradeType.BUY))
  let connector_2_price :=
    mdp.price_for_quote_volume connector_2 (!(decide (side = TradeType.BUY)))
  let estimated_fees_connector_1 := mdp.taker_fee_percent connector_1
  let estimated_fees_connector_2 := mdp.taker_fee_percent connector_2
  let estimated_trade_pnl_pct :=
    if side = TradeType.BUY then
      (connector_2_price - connector_1_price) / connector_1_price
    else
      (connector_1_price - connector_2_price) / connector_2_price
  estimated_trade_pnl_pct - estimated_fees_connector_1 - estimated_fees_connector_2

/-- `FundingRateArbitrage.quote_markets_map` with the source's `.get(...,
"USDT")` default. -/
def quote_markets_map (connector : String) : String :=
  if connector = "hyperliquid_perpetual" then "USD"
  else if connector = "binance_perpetual" then "USDT"
  else "USDT"

/-- `FundingRateArbitrage.get_trading_pair_for_connector`. -/
def get_trading_pair_for_connector (token connector : String) : String :=
  token ++ "-" ++ quote_markets_map connector

/-- The executor configuration fields the strategy fills in. -/
structure PositionExecutorConfig where
  connector_name : String
  trading_pair : String
  side : TradeType
  amount : ℚ

/-- `FundingRateArbitrage.get_position_executors_config`: same amount on both
venues, opposite side on the second. -/
def get_position_executors_config (token connector_1 connector_2 : String)
    (trade_side : TradeType) (mid_price_1 position_size_quote : ℚ) :
    PositionExecutorConfig × PositionExecutorConfig :=
  let position_amount := position_size_quote / mid_price_1
  (PositionExecutorConfig.mk connector_1
      (get_trading_pair_for_connector token connector_1) trade_side
      position_amount,
   PositionExecutorConfig.mk connector_2
      (get_trading_pair_for_connector token connector_2)
      (if trade_side = TradeType.SELL then TradeType.BUY else TradeType.SELL)
      position_amount)

/-- The funding-rate-arbitrage configuration fields used here. -/
structure FRAConfig where
  min_funding_rate_profitability : ℚ
  position_size_quote : ℚ
  profitability_to_take_profit : ℚ
  funding_rate_diff_stop_loss : ℚ
  trade_profitability_condition_to_enter : Bool

/-- `FundingRateArbitrage.create_actions_proposal`, recursing over
`config.tokens`.  Unpacking `best_combination` when it is `None` raises a
`TypeError` in the source (`connector_1, connector_2, ... = best_combination`),
modelled as `Except.error`.  A qualifying token returns its two create
actions immediately (the source's early `return`). -/
def create_actions_proposal (cfg : FRAConfig) (active_tokens : List String)
    (report : String → List (String × FundingInfo)) (mdp : String → FeePrices)
    (mid_price_1 : String → String → ℚ) :
    List String → Except Unit (List PositionExecutorConfig)
  | [] => Except.ok []
  | token :: rest =>
    if token ∈ active_tokens then
      create_actions_proposal cfg active_tokens report mdp mid_price_1 rest
    else
      match get_most_profitable_combination (report token) with
      | none => Except.error ()
      | some best =>
        if best.funding_rate_diff ≥ cfg.min_funding_rate_profitability then
          let current_profitability := get_current_profitability_after_fees
            (mdp token) best.connector_1 best.connector_2 best.trade_side
          if cfg.trade_profitability_condition_to_enter = true
              ∧ current_profitability < 0 then
            create_actions_proposal cfg active_tokens report mdp mid_price_1 rest
          else
            let pec := get_position_executors_config token best.connector_1
              best.connector_2 best.trade_side (mid_price_1 token best.connector_1)
              cfg.position_size_quote
            Except.ok [pec.1, pec.2]
        else
          create_actions_proposal cfg active_tokens report mdp mid_price_1 rest

/-- One active arbitrage record (`self.active_funding_arbitrages[token]`). -/
structure ArbInfo where
  connector_1 : String
  connector_2 : String
  executors_ids : List String
  side : TradeType
  funding_payments : List ℚ

/-- An executor as `stop_actions_proposal` reads it. -/
structure ExecutorInfo where
  exec_id : String
  net_pnl_quote : ℚ

/-- `StrategyV2Base.filter_executors` applied with the id filter used by
`stop_actions_proposal`. -/
def filter_executors (all_executors : List ExecutorInfo)
    (ids : List String) : List ExecutorInfo :=
  all_executors.filter (fun x => x.exec_id ∈ ids)

/-- The `take_profit_condition` boolean of `stop_actions_proposal`. -/
def take_profit_condition (cfg : FRAConfig) (executors : List ExecutorInfo)
    (info : ArbInfo) : Bool :=
  decide ((executors.map (fun e => e.net_pnl_quote)).sum
      + info.funding_payments.sum
    > cfg.profitability_to_take_profit * cfg.position_size_quote)

/-- The `current_funding_condition` boolean of `stop_actions_proposal`,
including the side-dependent sign of `funding_rate_diff`. -/
def current_funding_condition (cfg : FRAConfig)
    (report : List (String × FundingInfo)) (info : ArbInfo) : Bool :=
  let funding_rate_diff :=
    if info.side = TradeType.BUY then
      get_normalized_funding_rate_in_seconds report info.connector_2
        - get_normalized_funding_rate_in_seconds report info.connector_1
    else
      get_normalized_funding_rate_in_seconds report info.connector_1
        - get_normalized_funding_rate_in_seconds report info.connector_2
  decide (funding_rate_diff * funding_profitability_interval
    < cfg.funding_rate_diff_stop_loss)

/-- The body of `stop_actions_proposal` for one active arbitrage: the stop
actions issued (executor ids) and whether the record was appended to the
stopped-history list. -/
def stop_arbitrage_step (cfg : FRAConfig) (all_executors : List ExecutorInfo)
    (report : List (String × FundingInfo)) (info : ArbInfo) :
    List String × Bool :=
  let executors := filter_executors all_executors info.executors_ids
  if take_profit_condition cfg executors info then
    (executors.map (fun e => e.exec_id), true)
  else if current_funding_condition cfg report info then
    (executors.map (fun e => e.exec_id), true)
  else ([], false)

/-- `FundingRateArbitrage.stop_actions_proposal` over the active map:
returns the stop actions and the entries appended to
`stopped_funding_arbitrages`. -/
def stop_actions_proposal (cfg : FRAConfig) (all_executors : List ExecutorInfo)
    (reports : String → List (String × FundingInfo))
    (active : List (String × ArbInfo)) :
    List String × List (String × ArbInfo) :=
  active.foldl (fun acc ta =>
    let res := stop_arbitrage_step cfg all_executors (reports ta.1) ta.2
    (acc.1 ++ res.1, if res.2 then acc.2 ++ [ta] else acc.2)) ([], [])

/-- The strategy state the arbitrage bookkeeping lives in. -/
structure FRAState where
  active_funding_arbitrages : List (String × ArbInfo)
  stopped_funding_arbitrages : List (String × ArbInfo)

/-- The state effect of one `stop_actions_proposal` call: the source appends
to `stopped_funding_arbitrages[token]` and never deletes from
`active_funding_arbitrages`. -/
def apply_stop_actions (cfg : FRAConfig) (all_executors : List ExecutorInfo)
    (reports : String → List (String × FundingInfo)) (s : FRAState) :
    List String × FRAState :=
  let r := stop_actions_proposal cfg all_executors reports
    s.active_funding_arbitrages
  (r.1, FRAState.mk s.active_funding_arbitrages
    (s.stopped_funding_arbitrages ++ r.2))

/-- Windows walking backward from position `m` (exclusive), `r` of them:
window `t` holds samples `[m - (t+1)·interval, m - t·interval)`. -/
def windowsFrom (mp : List ℚ) (interval m r : ℕ) : List (List ℚ) :=
  (List.range r).map (fun t => (mp.drop (m - (t + 1) * interval)).take interval)

theorem pyRangeDown_eq_nil {last first : ℤ} {step : ℕ} (h : ¬ last > first) :
    pyRangeDown last first step = [] := by
  simp [pyRangeDown, pyRangeLen, h]

theorem pyRangeLen_pos_eq {last first : ℤ} {step : ℕ} (h : last > first)
    (hs : 0 < step) :
    pyRangeLen last first step = pyRangeLen (last - step) first step + 1 := by
  unfold pyRangeLen
  by_cases h2 : last - step > first
  · rw [if_pos h, if_pos h2]
    have e : last - first - 1 = (last - step - first - 1) + 1 * step := by ring
    rw [e, Int.add_mul_ediv_right _ _ (by omega : (step : ℤ) ≠ 0)]
    have h3 : 0 ≤ (last - step - first - 1) / step :=
      Int.ediv_nonneg (by omega) (by omega)
    omega
  · rw [if_pos h, if_neg h2]
    have h3 : (last - first - 1) / step = 0 :=
      Int.ediv_eq_zero_of_lt (by omega) (by omega)
    omega

theorem pyRangeDown_cons {last first : ℤ} {step : ℕ} (h : last > first)
    (hs : 0 < step) :
    pyRangeDown last first step = last :: pyRangeDown (last - step) first step := by
  unfold pyRangeDown
  rw [pyRangeLen_pos_eq h hs, List.range_succ_eq_map, List.map_cons, List.map_map]
  refine congrArg₂ _ (by simp) ?_
  apply List.map_congr_left
  intro t _
  simp only [Function.comp_apply, Nat.succ_eq_add_one]
  push_cast
  ring

theorem foldl_min_mem (xs : List ℚ) : ∀ x : ℚ, xs.foldl min x ∈ x :: xs := by
  induction xs with
  | nil => intro x; simp
  | cons y ys ih =>
    intro x
    have h := ih (min x y)
    rw [List.foldl_cons]
    rcases List.mem_cons.1 h with h1 | h1
    · rw [h1]
      rcases min_choice x y with h2 | h2 <;> rw [h2] <;> simp
    · exact List.mem_cons.2 (Or.inr (List.mem_cons.2 (Or.inr h1)))

theorem listMin_mem (x : ℚ) (xs : List ℚ) : listMin (x :: xs) ∈ x :: xs :=
  foldl_min_mem xs x

theorem listMin_pos {l : List ℚ} (hne : l ≠ []) (hpos : ∀ y ∈ l, 0 < y) :
    0 < listMin l := by
  match l, hne with
  | x :: xs, _ => exact hpos _ (listMin_mem x xs)

theorem pySlice_window {α : Type} (l : List α) (d n : ℕ) (h : d + n ≤ l.length) :
    pySlice l (d : ℤ) ((d + n : ℕ) : ℤ) = (l.drop d).take n := by
  unfold pySlice pyIdx
  have c1 : ¬ ((d : ℤ) < 0) := by omega
  have c2 : ¬ (((d + n : ℕ) : ℤ) < 0) := by omega
  rw [if_neg c1, if_neg c2]
  have e1 : (d : ℤ).toNat ⊓ l.length = d := by omega
  have e2 : ((d + n : ℕ) : ℤ).toNat ⊓ l.length = d + n := by omega
  rw [e1, e2]
  congr 1
  omega

theorem pySlice_of_short {α : Type} (l : List α) (n : ℕ) (i : ℤ)
    (hn : n ≤ l.length) (h0 : 0 ≤ i) (hi : i + 1 < n) :
    pySlice l (i - n + 1) (i + 1) = [] := by
  unfold pySlice pyIdx
  have hlen : (n : ℤ) ≤ l.length := by exact_mod_cast hn
  have c1 : (i - (n : ℤ) + 1) < 0 := by omega
  have c2 : ¬ ((i + 1) < 0) := by omega
  rw [if_pos c1, if_neg c2]
  have hz : (i + 1).toNat ⊓ l.length - ((l.length : ℤ) + (i - (n : ℤ) + 1)).toNat = 0 := by
    omega
  rw [hz, List.take_zero]

theorem windowsFrom_succ (mp : List ℚ) (interval m r : ℕ) :
    windowsFrom mp interval m (r + 1)
      = (mp.drop (m - interval)).take interval
          :: windowsFrom mp interval (m - interval) r := by
  unfold windowsFrom
  rw [List.range_succ_eq_map, List.map_cons, List.map_map]
  refine congrArg₂ _ (by simp) ?_
  apply List.map_congr_left
  intro t _
  simp only [Function.comp_apply, Nat.succ_eq_add_one]
  have e : (t + 1 + 1) * interval = interval + (t + 1) * interval := by ring
  have e2 : m - (t + 1 + 1) * interval = m - interval - (t + 1) * interval := by
    omega
  rw [e2]

theorem volLoop_cons_full (mp : List ℚ) (interval : ℕ) (i : ℤ) (rest : List ℤ)
    (d : ℕ) (ws : List ℚ) (he1 : i - interval + 1 = ((d : ℕ) : ℤ))
    (he2 : i + 1 = ((d + interval : ℕ) : ℤ))
    (hdn : d + interval ≤ mp.length) (hpos : ∀ x ∈ mp, 0 < x)
    (hint0 : 0 < interval)
    (hrest : volLoop mp interval rest = Except.ok ws) :
    volLoop mp interval (i :: rest)
      = Except.ok (rangeRatio ((mp.drop d).take interval) :: ws) := by
  simp only [volLoop]
  rw [he1, he2, pySlice_window mp d interval hdn]
  have hlen : ((mp.drop d).take interval).length = interval := by
    rw [List.length_take, List.length_drop]
    omega
  have hne : (mp.drop d).take interval ≠ [] := by
    intro hcon
    rw [hcon] at hlen
    simp at hlen
    omega
  have hmin : 0 < listMin ((mp.drop d).take interval) :=
    listMin_pos hne
      (fun y hy => hpos y (List.drop_subset _ _ (List.take_subset _ _ hy)))
  rw [if_neg (by simpa [List.isEmpty_iff] using hne), if_neg (by exact hmin.ne')]
  rw [hrest]
  simp [Bind.bind, Except.bind, Pure.pure, Except.pure, rangeRatio]

theorem volLoop_cons_break (mp : List ℚ) (interval : ℕ) (i : ℤ) (rest : List ℤ)
    (hn : interval ≤ mp.length) (h0 : 0 ≤ i) (hi : i + 1 < interval) :
    volLoop mp interval (i :: rest) = Except.ok [] := by
  simp only [volLoop]
  rw [pySlice_of_short mp interval i hn h0 hi]
  simp

theorem volLoop_run (mp : List ℚ) (interval period : ℕ) (h2 : 2 ≤ interval)
    (hintL : interval ≤ mp.length) (hpos : ∀ x ∈ mp, 0 < x) :
    ∀ r j, j + r = min period (mp.length / interval) →
      volLoop mp interval
        (pyRangeDown ((mp.length : ℤ) - 1 - (j : ℤ) * interval)
          (max ((mp.length : ℤ) - 1 - (interval : ℤ) * period) 0) interval)
        = Except.ok
            ((windowsFrom mp interval (mp.length - j * interval) r).map rangeRatio) := by
  have hint0 : 0 < interval := by omega
  have hdm := Nat.div_add_mod mp.length interval
  have hmod : mp.length % interval < interval := Nat.mod_lt _ hint0
  intro r
  induction r with
  | zero =>
    intro j hj
    simp only [Nat.add_zero] at hj
    by_cases hpr : (max ((mp.length : ℤ) - 1 - (interval : ℤ) * period) 0)
        < (mp.length : ℤ) - 1 - (j : ℤ) * interval
    · -- the loop still has an index, but j = ⌊L / interval⌋, so the
      -- remaining slice is a short trailing window: the loop breaks.
      have c3 : ((j * interval : ℕ) : ℤ) = (j : ℤ) * interval := by push_cast; ring
      have c5 : ((interval * period : ℕ) : ℤ) = (interval : ℤ) * period := by
        push_cast; ring
      have hjn : j * interval < interval * period := by
        have : (j : ℤ) * interval < (interval : ℤ) * period := by omega
        exact_mod_cast this
      have hjper : j < period := by
        have h' : interval * j < interval * period := by
          rw [mul_comm] at hjn
          exact hjn
        exact Nat.lt_of_mul_lt_mul_left h'
      have hq : j = mp.length / interval := by omega
      have c4 : interval * (mp.length / interval) = j * interval := by
        rw [hq]; ring
      rw [pyRangeDown_cons hpr hint0]
      rw [volLoop_cons_break mp interval _ _ hintL (by omega) (by omega)]
      simp [windowsFrom]
    · rw [pyRangeDown_eq_nil hpr]
      simp [volLoop, windowsFrom]
  | succ r ih =>
    intro j hj
    have hk : j + 1 ≤ min period (mp.length / interval) := by omega
    have hjq : j + 1 ≤ mp.length / interval := le_trans hk (min_le_right _ _)
    have hjper : j + 1 ≤ period := le_trans hk (min_le_left _ _)
    have hD : (j + 1) * interval ≤ mp.length :=
      le_trans (Nat.mul_le_mul hjq (le_refl interval))
        (Nat.div_mul_le_self mp.length interval)
    have link1 : (j + 1) * interval = j * interval + interval := by ring
    have link2 : (j + 1 + 1) * interval = (j + 1) * interval + interval := by ring
    have c3 : ((j * interval : ℕ) : ℤ) = (j : ℤ) * interval := by push_cast; ring
    have c3' : (((j + 1) * interval : ℕ) : ℤ) = ((j : ℤ) + 1) * interval := by
      push_cast; ring
    have c5 : ((interval * period : ℕ) : ℤ) = (interval : ℤ) * period := by
      push_cast; ring
    have hjn : j * interval < interval * period := by
      calc j * interval < (j + 1) * interval := by omega
        _ ≤ period * interval := Nat.mul_le_mul hjper (le_refl interval)
        _ = interval * period := by ring
    have hpr : (max ((mp.length : ℤ) - 1 - (interval : ℤ) * period) 0)
        < (mp.length : ℤ) - 1 - (j : ℤ) * interval := by
      have hjnZ : (j : ℤ) * interval < (interval : ℤ) * period := by
        rw [← c3, ← c5]
        exact_mod_cast hjn
      have linkZ : ((j : ℤ) + 1) * interval = (j : ℤ) * interval + interval := by
        ring
      have hDZ : ((j : ℤ) + 1) * interval ≤ (mp.length : ℤ) := by
        rw [← c3']
        exact_mod_cast hD
      omega
    rw [pyRangeDown_cons hpr hint0]
    have he1 : (mp.length : ℤ) - 1 - (j : ℤ) * interval - interval + 1
        = (((mp.length - (j + 1) * interval : ℕ)) : ℤ) := by
      have linkZ : ((j : ℤ) + 1) * interval = (j : ℤ) * interval + interval := by
        ring
      have hc : (((j + 1) * interval : ℕ) : ℤ) = ((j : ℤ) + 1) * interval := c3'
      omega
    have he2 : (mp.length : ℤ) - 1 - (j : ℤ) * interval + 1
        = (((mp.length - (j + 1) * interval + interval : ℕ)) : ℤ) := by
      have linkZ : ((j : ℤ) + 1) * interval = (j : ℤ) * interval + interval := by
        ring
      have hc : (((j + 1) * interval : ℕ) : ℤ) = ((j : ℤ) + 1) * interval := c3'
      omega
    have hrestIdx : (mp.length : ℤ) - 1 - (j : ℤ) * interval - interval
        = (mp.length : ℤ) - 1 - ((j + 1 : ℕ) : ℤ) * interval := by
      push_cast
      ring
    have hrest : volLoop mp interval
        (pyRangeDown ((mp.length : ℤ) - 1 - (j : ℤ) * interval - interval)
          (max ((mp.length : ℤ) - 1 - (interval : ℤ) * period) 0) interval)
        = Except.ok
            ((windowsFrom mp interval (mp.length - (j + 1) * interval) r).map
              rangeRatio) := by
      rw [hrestIdx]
      exact ih (j + 1) (by omega)
    rw [volLoop_cons_full mp interval _ _ (mp.length - (j + 1) * interval)
      _ he1 he2 (by omega) hpos hint0 hrest]
    have hwin : mp.length - (j + 1) * interval
        = mp.length - j * interval - interval := by omega
    rw [windowsFrom_succ, List.map_cons, hwin]

theorem update_volatility_spec (mp : List ℚ) (interval period : ℕ)
    (h2 : 2 ≤ interval) (hper : 1 ≤ period) (hintL : interval ≤ mp.length)
    (hpos : ∀ x ∈ mp, 0 < x) :
    update_volatility mp interval period
      = Except.ok
          (some (listMean ((specWindows mp interval period).map rangeRatio))) := by
  have hint0 : 0 < interval := by omega
  have hrun := volLoop_run mp interval period h2 hintL hpos
      (min period (mp.length / interval)) 0 (by omega)
  have e0 : (mp.length : ℤ) - 1 - ((0 : ℕ) : ℤ) * interval
      = (mp.length : ℤ) - 1 := by
    push_cast
    ring
  rw [e0] at hrun
  have ewin : windowsFrom mp interval (mp.length - 0 * interval)
      (min period (mp.length / interval)) = specWindows mp interval period := by
    simp [windowsFrom, specWindows]
  rw [ewin] at hrun
  have hk1 : 1 ≤ min period (mp.length / interval) :=
    le_min hper ((Nat.one_le_div_iff hint0).mpr hintL)
  have hne : (specWindows mp interval period).map rangeRatio ≠ [] := by
    intro hcon
    have := congrArg List.length hcon
    simp [specWindows] at this
    omega
  unfold update_volatility
  rw [hrun]
  simp only [Bind.bind, Except.bind, Pure.pure, Except.pure]
  rw [if_neg (by simpa [List.isEmpty_iff] using hne)]

theorem update_volatility_short (mp : List ℚ) (interval period : ℕ)
    (hlen : mp.length ≤ 1) :
    update_volatility mp interval period = Except.ok none := by
  have hnn : (0 : ℤ) ≤ (interval : ℤ) * period := by positivity
  have h : ¬ ((mp.length : ℤ) - 1
      > max ((mp.length : ℤ) - 1 - (interval : ℤ) * period) 0) := by
    omega
  unfold update_volatility
  rw [pyRangeDown_eq_nil h]
  simp [volLoop, Bind.bind, Except.bind, Pure.pure, Except.pure]

/-- C1, counterexample: a buffer of two samples with `volatility_interval =
5` contains no full window, yet `update_volatility` returns 1 (the Python
slice `mid_prices[-3:2]` wraps to the whole short buffer), not the NaN the
claim requires. -/
theorem C1_counterexample :
    update_volatility [1, 2] 5 10 = Except.ok (some 1)
    ∧ (Except.ok (some (1 : ℚ)) : Except Unit (Option ℚ)) ≠ Except.ok none := by
  constructor
  · simp [update_volatility, volLoop, pyRangeDown, pyRangeLen, pySlice, pyIdx,
      listMin, listMax, listMean, List.range_succ,
      Bind.bind, Except.bind, Pure.pure, Except.pure]
    norm_num
  · simp

/-- C1, amended: for a buffer holding at least one full window
(`volatility_interval ≥ 2` as the configuration requires) of positive
mid-prices, the volatility is the arithmetic mean, over consecutive windows
of length `volatility_interval` walking backward from the newest sample and
capped at `avg_volatility_period` windows, of `(max - min) / min` per
window, with a short trailing window skipped.  A buffer with at most one
sample yields NaN, but a buffer with `2 ≤ len < volatility_interval`
samples yields a partial-window ratio (see the counterexample), and a
window whose minimum is 0 raises a Decimal division error rather than
producing NaN. -/
theorem C1_volatility_amended :
    (∀ (mp : List ℚ) (interval period : ℕ), 2 ≤ interval → 1 ≤ period →
      interval ≤ mp.length → (∀ x ∈ mp, 0 < x) →
      update_volatility mp interval period
        = Except.ok
            (some (listMean ((specWindows mp interval period).map rangeRatio))))
    ∧ (∀ (mp : List ℚ) (interval period : ℕ), mp.length ≤ 1 →
        update_volatility mp interval period = Except.ok none)
    ∧ update_volatility [0, 1, 1] 3 1 = Except.error () := by
  refine ⟨fun mp i p h1 h2 h3 h4 => update_volatility_spec mp i p h1 h2 h3 h4,
    fun mp i p h => update_volatility_short mp i p h, ?_⟩
  simp [update_volatility, volLoop, pyRangeDown, pyRangeLen, pySlice, pyIdx,
    listMin, listMax, List.range_succ,
    Bind.bind, Except.bind, Pure.pure, Except.pure]

/-- C1, witness: the amended theorem applied to the concrete buffer
`[1, 2, 1, 2]` with interval 2 and period 2. -/
theorem C1_witness :
    update_volatility [1, 2, 1, 2] 2 2
      = Except.ok
          (some (listMean ((specWindows [1, 2, 1, 2] 2 2).map rangeRatio))) :=
  C1_volatility_amended.1 [1, 2, 1, 2] 2 2 (by norm_num) (by norm_num)
    (by norm_num)
    (by
      intro x hx
      fin_cases hx <;> norm_num)

/-- C10: a confirmed BUY fill of amount `a` at price `p` on market `m`
decreases `buy_budget[m]` by exactly `a × p` and increases `sell_budget[m]`
by exactly `a`; a SELL fill mirrors this; all other markets' budgets are
unchanged. -/
theorem C10_fill_updates_budgets :
    ∀ (b : Budgets) (e : OrderFilledEvt),
      (e.trade_type = TradeType.BUY →
        (did_fill_order b e).buy_budgets e.trading_pair
            = b.buy_budgets e.trading_pair - e.amount * e.price ∧
        (did_fill_order b e).sell_budgets e.trading_pair
            = b.sell_budgets e.trading_pair + e.amount) ∧
      (e.trade_type = TradeType.SELL →
        (did_fill_order b e).sell_budgets e.trading_pair
            = b.sell_budgets e.trading_pair - e.amount ∧
        (did_fill_order b e).buy_budgets e.trading_pair
            = b.buy_budgets e.trading_pair + e.amount * e.price) ∧
      (∀ m, m ≠ e.trading_pair →
        (did_fill_order b e).buy_budgets m = b.buy_budgets m ∧
        (did_fill_order b e).sell_budgets m = b.sell_budgets m) := by
  intro b e
  refine ⟨fun he => ?_, fun he => ?_, fun m hm => ?_⟩
  · simp [did_fill_order, he]
  · simp [did_fill_order, he]
  · cases he : e.trade_type <;> simp [did_fill_order, he, hm]

/-- C3, counterexample: two markets quoted in `USDT`, every balance 1, mid
prices 10 and 1.  The portfolio value is 12 and each portion 6, but market
`B1-USDT` is allocated `buy + sell × mid = 0 + 1 × 10 = 10 > 6 × (1 +
1/100)`: the claimed per-market bound fails (for any ε < 2/3), far beyond
quantization error. -/
theorem C3_counterexample :
    buy_budget_alloc (fun _ => (1 : ℚ))
        (market_portion (fun _ => (1 : ℚ)) "USDT"
          [MarketInfo.mk "B1-USDT" "B1" "USDT" 10,
           MarketInfo.mk "B2-USDT" "B2" "USDT" 1])
        (MarketInfo.mk "B1-USDT" "B1" "USDT" 10)
      + sell_budget_alloc (fun _ => (1 : ℚ))
          (MarketInfo.mk "B1-USDT" "B1" "USDT" 10)
        * (MarketInfo.mk "B1-USDT" "B1" "USDT" 10).mid_price
    > market_portion (fun _ => (1 : ℚ)) "USDT"
          [MarketInfo.mk "B1-USDT" "B1" "USDT" 10,
           MarketInfo.mk "B2-USDT" "B2" "USDT" 1]
        * (1 + 1 / 100) := by
  norm_num [buy_budget_alloc, sell_budget_alloc, market_portion,
    total_port_value_in_token]

/-- C3, amended: the per-market portions sum exactly to the total portfolio
value, and each market's allocation satisfies `buy_budget + sell_budget ×
mid = max(market_portion, base_balance × mid)` — so the claimed inequality
holds exactly for the markets whose pre-existing base-balance value does
not exceed their portion. -/
theorem C3_budget_allocation_amended :
    ∀ (bals : String → ℚ) (token : String) (markets : List MarketInfo),
      markets ≠ [] →
      (markets.length : ℚ) * market_portion bals token markets
          = total_port_value_in_token bals token markets
      ∧ ∀ m ∈ markets,
          buy_budget_alloc bals (market_portion bals token markets) m
              + sell_budget_alloc bals m * m.mid_price
            = max (market_portion bals token markets)
                (bals m.base * m.mid_price) := by
  intro bals token markets hne
  constructor
  · unfold market_portion
    rw [mul_comm, div_mul_cancel₀]
    exact Nat.cast_ne_zero.mpr (by
      intro h
      exact hne (List.length_eq_zero.mp h))
  · intro m hm
    unfold buy_budget_alloc sell_budget_alloc
    by_cases h : market_portion bals token markets - bals m.base * m.mid_price > 0
    · rw [if_pos h, max_eq_left (by linarith)]
      ring
    · rw [if_neg h, max_eq_right (by linarith)]
      ring

/-- C3, witness: the amended theorem at one market with unit balances. -/
theorem C3_witness :
    (([MarketInfo.mk "A-USDT" "A" "USDT" 2].length : ℚ)
        * market_portion (fun _ => (1 : ℚ)) "USDT"
            [MarketInfo.mk "A-USDT" "A" "USDT" 2]
      = total_port_value_in_token (fun _ => (1 : ℚ)) "USDT"
          [MarketInfo.mk "A-USDT" "A" "USDT" 2])
    ∧ ∀ m ∈ [MarketInfo.mk "A-USDT" "A" "USDT" 2],
        buy_budget_alloc (fun _ => (1 : ℚ))
            (market_portion (fun _ => (1 : ℚ)) "USDT"
              [MarketInfo.mk "A-USDT" "A" "USDT" 2]) m
          + sell_budget_alloc (fun _ => (1 : ℚ)) m * m.mid_price
        = max (market_portion (fun _ => (1 : ℚ)) "USDT"
              [MarketInfo.mk "A-USDT" "A" "USDT" 2])
            ((fun _ => (1 : ℚ)) m.base * m.mid_price) :=
  C3_budget_allocation_amended (fun _ => (1 : ℚ)) "USDT"
    [MarketInfo.mk "A-USDT" "A" "USDT" 2] (by simp)

/-- C2: with `dynamic_spread` enabled and the feed returning no data for
`(binance, DOGE-USDT)` — the hard-coded lookup table has no such key, so
`get_spread` is `None` for every fetch — `create_base_proposals_dynamic`
emits no proposal at all for the market (the source only logs a warning),
while the static path would emit one: the logged "back to static spread"
fallback does not exist in the code. -/
theorem C2_dynamic_no_fallback :
    (∀ (fetch : ℕ → Option SpreadData) (qp : String → ℚ → ℚ) (cfg : LMConfig),
      create_base_proposals_dynamic cfg "binance"
        [MarketInfo.mk "DOGE-USDT" "DOGE" "USDT" (1 / 10)] fetch qp = [])
    ∧ (create_base_proposals_static
          (LMConfig.mk "USDT" 100 (1 / 100) 1 (-1) (2 / 10) 3600)
          [MarketInfo.mk "DOGE-USDT" "DOGE" "USDT" (1 / 10)] (fun _ => none)
          (fun _ x => x)).map Proposal.market = ["DOGE-USDT"] := by
  constructor
  · intro fetch qp cfg
    have h1 : miner_market "binance" "DOGE-USDT" = none := by decide
    simp [create_base_proposals_dynamic, get_spread, h1]
  · simp [create_base_proposals_static]

/-- C9: on a report whose connectors all have equal normalized funding
rates, `get_most_profitable_combination` returns `None` and
`create_actions_proposal` unpacks it
(`connector_1, connector_2, trade_side, expected_profitability =
best_combination`), raising a `TypeError` — modelled as `Except.error` —
instead of returning normally. -/
theorem C9_create_actions_raises :
    ∀ (mdp : String → FeePrices) (mid : String → String → ℚ),
      create_actions_proposal
        (FRAConfig.mk (1 / 1000) 100 (1 / 100) (-(1 / 1000)) false) []
        (fun _ => [("a", FundingInfo.mk 0), ("b", FundingInfo.mk 0)]) mdp mid
        ["WIF"] = Except.error () := by
  intro mdp mid
  have ha : get_normalized_funding_rate_in_seconds
      [("a", FundingInfo.mk 0), ("b", FundingInfo.mk 0)] "a" = 0 := by
    simp [get_normalized_funding_rate_in_seconds, List.lookup]
  have hb : get_normalized_funding_rate_in_seconds
      [("a", FundingInfo.mk 0), ("b", FundingInfo.mk 0)] "b" = 0 := by
    simp [get_normalized_funding_rate_in_seconds, List.lookup]
  have hg : get_most_profitable_combination
      [("a", FundingInfo.mk 0), ("b", FundingInfo.mk 0)] = none := by
    simp [get_most_profitable_combination, allPairs, gmpc_step, ha, hb]
  simp [create_actions_proposal, hg]

/-- Generic accumulator form of the `stop_actions_proposal` fold. -/
theorem stop_fold_spec (cfg : FRAConfig) (ex : List ExecutorInfo)
    (reports : String → List (String × FundingInfo)) :
    ∀ (active : List (String × ArbInfo))
      (init : List String × List (String × ArbInfo)),
      active.foldl (fun acc ta =>
        let res := stop_arbitrage_step cfg ex (reports ta.1) ta.2
        (acc.1 ++ res.1, if res.2 then acc.2 ++ [ta] else acc.2)) init
      = (init.1 ++ active.flatMap
            (fun ta => (stop_arbitrage_step cfg ex (reports ta.1) ta.2).1),
         init.2 ++ active.filter
            (fun ta => (stop_arbitrage_step cfg ex (reports ta.1) ta.2).2)) := by
  intro active
  induction active with
  | nil => intro init; simp
  | cons ta rest ih =>
    intro init
    rw [List.foldl_cons, ih]
    cases hres : (stop_arbitrage_step cfg ex (reports ta.1) ta.2).2 <;>
      simp [hres, List.filter_cons]

/-- C6: an active arbitrage's executors are all stopped, and the record
appended to the stopped-history list, exactly when the strict take-profit
condition holds or the stop-loss condition
`(normalized(short venue) - normalized(long venue)) ×
funding_profitability_interval < funding_rate_diff_stop_loss` holds; and in
particular combined PnL 1.01 against `position_size_quote = 100`,
`profitability_to_take_profit = 0.01` triggers the stop while 0.99 does
not. -/
theorem C6_stop_conditions :
    (∀ (cfg : FRAConfig) (ex : List ExecutorInfo)
        (report : List (String × FundingInfo)) (info : ArbInfo),
      stop_arbitrage_step cfg ex report info
        = if ((filter_executors ex info.executors_ids).map
                  (fun e => e.net_pnl_quote)).sum + info.funding_payments.sum
                > cfg.profitability_to_take_profit * cfg.position_size_quote
              ∨ (get_normalized_funding_rate_in_seconds report
                    (if info.side = TradeType.BUY then info.connector_2
                     else info.connector_1)
                  - get_normalized_funding_rate_in_seconds report
                    (if info.side = TradeType.BUY then info.connector_1
                     else info.connector_2))
                  * funding_profitability_interval
                < cfg.funding_rate_diff_stop_loss
          then ((filter_executors ex info.executors_ids).map
              (fun e => e.exec_id), true)
          else ([], false))
    ∧ (∀ (cfg : FRAConfig) (ex : List ExecutorInfo)
        (reports : String → List (String × FundingInfo))
        (active : List (String × ArbInfo)),
      (stop_actions_proposal cfg ex reports active).1
        = active.flatMap
            (fun ta => (stop_arbitrage_step cfg ex (reports ta.1) ta.2).1)
      ∧ (stop_actions_proposal cfg ex reports active).2
        = active.filter
            (fun ta => (stop_arbitrage_step cfg ex (reports ta.1) ta.2).2))
    ∧ stop_arbitrage_step
        (FRAConfig.mk (1 / 1000) 100 (1 / 100) (-(1 / 1000)) false)
        [ExecutorInfo.mk "e1" (101 / 100), ExecutorInfo.mk "e2" 0]
        [("b", FundingInfo.mk 0), ("h", FundingInfo.mk 0)]
        (ArbInfo.mk "b" "h" ["e1", "e2"] TradeType.BUY [])
      = (["e1", "e2"], true)
    ∧ stop_arbitrage_step
        (FRAConfig.mk (1 / 1000) 100 (1 / 100) (-(1 / 1000)) false)
        [ExecutorInfo.mk "e1" (99 / 100), ExecutorInfo.mk "e2" 0]
        [("b", FundingInfo.mk 0), ("h", FundingInfo.mk 0)]
        (ArbInfo.mk "b" "h" ["e1", "e2"] TradeType.BUY [])
      = ([], false) := by
  refine ⟨?_, ?_, ?_, ?_⟩
  · intro cfg ex report info
    unfold stop_arbitrage_step take_profit_condition current_funding_condition
    cases hs : info.side <;>
      simp only [hs, if_pos rfl, reduceCtorEq, if_neg, decide_eq_true_eq] <;>
      split_ifs <;> first | rfl | tauto
  · intro cfg ex reports active
    unfold stop_actions_proposal
    rw [stop_fold_spec]
    simp
  · unfold stop_arbitrage_step take_profit_condition current_funding_condition
      filter_executors
    norm_num [get_normalized_funding_rate_in_seconds, List.lookup,
      funding_profitability_interval, List.filter]
  · unfold stop_arbitrage_step take_profit_condition current_funding_condition
      filter_executors
    norm_num [get_normalized_funding_rate_in_seconds, List.lookup,
      funding_profitability_interval, List.filter,
      funding_payment_interval_map,
      show (("h" : String) == "b") = false by decide,
      show (("b" : String) == "b") = true by decide,
      show ("h" : String) ≠ "binance_perpetual" by decide,
      show ("h" : String) ≠ "hyperliquid_perpetual" by decide,
      show ("b" : String) ≠ "binance_perpetual" by decide,
      show ("b" : String) ≠ "hyperliquid_perpetual" by decide]

/-- C7: `create_actions_proposal` creates executor actions only when the
best pair's diff is at least `min_funding_rate_profitability` and, when
`trade_profitability_condition_to_enter` is set, only when the after-fees
profitability is nonnegative; and in particular with
`min_funding_rate_profitability = 0.01` and a maximum normalized diff ×
86400 of 0.009, no executors are created. -/
theorem C7_entry_gating :
    (∀ (cfg : FRAConfig) (active : List String)
        (report : String → List (String × FundingInfo))
        (mdp : String → FeePrices) (mid : String → String → ℚ)
        (tokens : List String) (acts : List PositionExecutorConfig),
      create_actions_proposal cfg active report mdp mid tokens
          = Except.ok acts →
      acts ≠ [] →
      ∃ token ∈ tokens, token ∉ active ∧
        ∃ best, get_most_profitable_combination (report token) = some best ∧
          cfg.min_funding_rate_profitability ≤ best.funding_rate_diff ∧
          (cfg.trade_profitability_condition_to_enter = true →
            0 ≤ get_current_profitability_after_fees (mdp token)
              best.connector_1 best.connector_2 best.trade_side))
    ∧ (∀ (mdp : String → FeePrices) (mid : String → String → ℚ),
        create_actions_proposal
          (FRAConfig.mk (1 / 100) 100 (1 / 100) (-(1 / 1000)) false) []
          (fun _ => [("binance_perpetual", FundingInfo.mk (3 / 1000)),
                     ("hyperliquid_perpetual", FundingInfo.mk 0)]) mdp mid
          ["WIF"] = Except.ok []) := by
  constructor
  · intro cfg active report mdp mid tokens
    induction tokens with
    | nil =>
      intro acts h hne
      simp only [create_actions_proposal] at h
      cases h
      exact absurd rfl hne
    | cons t rest ih =>
      intro acts h hne
      simp only [create_actions_proposal] at h
      by_cases ht : t ∈ active
      · rw [if_pos ht] at h
        obtain ⟨tok, htok, hrest⟩ := ih acts h hne
        exact ⟨tok, List.mem_cons_of_mem t htok, hrest⟩
      · rw [if_neg ht] at h
        split at h
        · exact absurd h (by simp)
        · next best hbest =>
          split at h
          · next hd =>
            split at h
            · next hc =>
              obtain ⟨tok, htok, hrest⟩ := ih acts h hne
              exact ⟨tok, List.mem_cons_of_mem t htok, hrest⟩
            · next hc =>
              refine ⟨t, List.mem_cons_self t rest, ht, best, hbest, hd, ?_⟩
              intro hcond
              by_contra hneg
              push_neg at hneg
              exact hc ⟨hcond, hneg⟩
          · next hd =>
            obtain ⟨tok, htok, hrest⟩ := ih acts h hne
            exact ⟨tok, List.mem_cons_of_mem t htok, hrest⟩
  · intro mdp mid
    have hb : get_normalized_funding_rate_in_seconds
        [("binance_perpetual", FundingInfo.mk (3 / 1000)),
         ("hyperliquid_perpetual", FundingInfo.mk 0)] "binance_perpetual"
        = 1 / 9600000 := by
      norm_num [get_normalized_funding_rate_in_seconds, List.lookup,
        funding_payment_interval_map]
    have hh : get_normalized_funding_rate_in_seconds
        [("binance_perpetual", FundingInfo.mk (3 / 1000)),
         ("hyperliquid_perpetual", FundingInfo.mk 0)] "hyperliquid_perpetual"
        = 0 := by
      norm_num [get_normalized_funding_rate_in_seconds, List.lookup,
        funding_payment_interval_map,
        show (("hyperliquid_perpetual" : String) == "binance_perpetual") = false
          by decide,
        show ("hyperliquid_perpetual" : String) ≠ "binance_perpetual" by decide]
    have hg : get_most_profitable_combination
        [("binance_perpetual", FundingInfo.mk (3 / 1000)),
         ("hyperliquid_perpetual", FundingInfo.mk 0)]
        = some (Combination.mk "binance_perpetual" "hyperliquid_perpetual"
            TradeType.SELL (9 / 1000)) := by
      norm_num [get_most_profitable_combination, allPairs, gmpc_step, hb, hh,
        funding_profitability_interval,
        show ("binance_perpetual" : String) ≠ "hyperliquid_perpetual" by decide,
        show ("hyperliquid_perpetual" : String) ≠ "binance_perpetual" by decide]
      norm_num [abs_of_nonneg, abs_of_nonpos]
    simp only [create_actions_proposal, hg]
    norm_num

/-- C7, witness: the gating theorem applied to a concrete entering
scenario (diff 0.09 ≥ 0.001, fee condition off). -/
theorem C7_entry_gating_witness :
    ∃ token ∈ ["WIF"], token ∉ ([] : List String) ∧
      ∃ best,
        get_most_profitable_combination
            ((fun _ => [("binance_perpetual", FundingInfo.mk (3 / 100)),
                        ("hyperliquid_perpetual", FundingInfo.mk 0)])
              token) = some best ∧
        (FRAConfig.mk (1 / 1000) 100 (1 / 100) (-(1 / 1000))
            false).min_funding_rate_profitability ≤ best.funding_rate_diff ∧
        ((FRAConfig.mk (1 / 1000) 100 (1 / 100) (-(1 / 1000))
            false).trade_profitability_condition_to_enter = true →
          0 ≤ get_current_profitability_after_fees
            ((fun _ => FeePrices.mk (fun _ _ => 1) (fun _ => 0)) token)
            best.connector_1 best.connector_2 best.trade_side) := by
  have hb : get_normalized_funding_rate_in_seconds
      [("binance_perpetual", FundingInfo.mk (3 / 100)),
       ("hyperliquid_perpetual", FundingInfo.mk 0)] "binance_perpetual"
      = 1 / 960000 := by
    norm_num [get_normalized_funding_rate_in_seconds, List.lookup,
      funding_payment_interval_map]
  have hh : get_normalized_funding_rate_in_seconds
      [("binance_perpetual", FundingInfo.mk (3 / 100)),
       ("hyperliquid_perpetual", FundingInfo.mk 0)] "hyperliquid_perpetual"
      = 0 := by
    norm_num [get_normalized_funding_rate_in_seconds, List.lookup,
      funding_payment_interval_map,
      show (("hyperliquid_perpetual" : String) == "binance_perpetual") = false
        by decide,
      show ("hyperliquid_perpetual" : String) ≠ "binance_perpetual" by decide]
  have hg : get_most_profitable_combination
      [("binance_perpetual", FundingInfo.mk (3 / 100)),
       ("hyperliquid_perpetual", FundingInfo.mk 0)]
      = some (Combination.mk "binance_perpetual" "hyperliquid_perpetual"
          TradeType.SELL (9 / 100)) := by
    norm_num [get_most_profitable_combination, allPairs, gmpc_step, hb, hh,
      funding_profitability_interval,
      show ("binance_perpetual" : String) ≠ "hyperliquid_perpetual" by decide,
      show ("hyperliquid_perpetual" : String) ≠ "binance_perpetual" by decide]
    norm_num [abs_of_nonneg, abs_of_nonpos]
  refine C7_entry_gating.1 (FRAConfig.mk (1 / 1000) 100 (1 / 100) (-(1 / 1000))
      false) []
    (fun _ => [("binance_perpetual", FundingInfo.mk (3 / 100)),
               ("hyperliquid_perpetual", FundingInfo.mk 0)])
    (fun _ => FeePrices.mk (fun _ _ => 1) (fun _ => 0)) (fun _ _ => 1) ["WIF"]
    [PositionExecutorConfig.mk "binance_perpetual" "WIF-USDT" TradeType.SELL 100,
     PositionExecutorConfig.mk "hyperliquid_perpetual" "WIF-USD" TradeType.BUY 100]
    ?_ (by simp)
  simp only [create_actions_proposal, hg]
  norm_num [get_position_executors_config, get_trading_pair_for_connector,
    quote_markets_map,
    show ("binance_perpetual" : String) ≠ "hyperliquid_perpetual" by decide]
  exact ⟨by decide, by decide⟩

/-- C8, counterexample: a take-profit exit stops both executors and records
the arbitrage in the stopped list, but the token stays in
`active_funding_arbitrages` (the source never deletes it), so a later
`create_actions_proposal` still skips the token and returns no create
action — even under funding rates for which it would open a new arbitrage
from an empty active map.  The token does not return to Idle. -/
theorem C8_counterexample :
    (apply_stop_actions
        (FRAConfig.mk (1 / 1000) 100 (1 / 100) (-(1 / 1000)) false)
        [ExecutorInfo.mk "e1" (101 / 100), ExecutorInfo.mk "e2" 0]
        (fun _ => [("b", FundingInfo.mk 0), ("h", FundingInfo.mk 0)])
        (FRAState.mk
          [("WIF", ArbInfo.mk "b" "h" ["e1", "e2"] TradeType.BUY [])] [])).1
      = ["e1", "e2"]
    ∧ ((apply_stop_actions
        (FRAConfig.mk (1 / 1000) 100 (1 / 100) (-(1 / 1000)) false)
        [ExecutorInfo.mk "e1" (101 / 100), ExecutorInfo.mk "e2" 0]
        (fun _ => [("b", FundingInfo.mk 0), ("h", FundingInfo.mk 0)])
        (FRAState.mk
          [("WIF", ArbInfo.mk "b" "h" ["e1", "e2"] TradeType.BUY [])]
          [])).2).stopped_funding_arbitrages
      = [("WIF", ArbInfo.mk "b" "h" ["e1", "e2"] TradeType.BUY [])]
    ∧ ((apply_stop_actions
        (FRAConfig.mk (1 / 1000) 100 (1 / 100) (-(1 / 1000)) false)
        [ExecutorInfo.mk "e1" (101 / 100), ExecutorInfo.mk "e2" 0]
        (fun _ => [("b", FundingInfo.mk 0), ("h", FundingInfo.mk 0)])
        (FRAState.mk
          [("WIF", ArbInfo.mk "b" "h" ["e1", "e2"] TradeType.BUY [])]
          [])).2).active_funding_arbitrages
      = [("WIF", ArbInfo.mk "b" "h" ["e1", "e2"] TradeType.BUY [])]
    ∧ create_actions_proposal
        (FRAConfig.mk (1 / 1000) 100 (1 / 100) (-(1 / 1000)) false)
        ((((apply_stop_actions
            (FRAConfig.mk (1 / 1000) 100 (1 / 100) (-(1 / 1000)) false)
            [ExecutorInfo.mk "e1" (101 / 100), ExecutorInfo.mk "e2" 0]
            (fun _ => [("b", FundingInfo.mk 0), ("h", FundingInfo.mk 0)])
            (FRAState.mk
              [("WIF", ArbInfo.mk "b" "h" ["e1", "e2"] TradeType.BUY [])]
              [])).2).active_funding_arbitrages).map Prod.fst)
        (fun _ => [("binance_perpetual", FundingInfo.mk (3 / 100)),
                   ("hyperliquid_perpetual", FundingInfo.mk 0)])
        (fun _ => FeePrices.mk (fun _ _ => 1) (fun _ => 0)) (fun _ _ => 1)
        ["WIF"] = Except.ok []
    ∧ create_actions_proposal
        (FRAConfig.mk (1 / 1000) 100 (1 / 100) (-(1 / 1000)) false) []
        (fun _ => [("binance_perpetual", FundingInfo.mk (3 / 100)),
                   ("hyperliquid_perpetual", FundingInfo.mk 0)])
        (fun _ => FeePrices.mk (fun _ _ => 1) (fun _ => 0)) (fun _ _ => 1)
        ["WIF"] ≠ Except.ok [] := by
  have hstop : stop_arbitrage_step
      (FRAConfig.mk (1 / 1000) 100 (1 / 100) (-(1 / 1000)) false)
      [ExecutorInfo.mk "e1" (101 / 100), ExecutorInfo.mk "e2" 0]
      [("b", FundingInfo.mk 0), ("h", FundingInfo.mk 0)]
      (ArbInfo.mk "b" "h" ["e1", "e2"] TradeType.BUY [])
      = (["e1", "e2"], true) := by
    unfold stop_arbitrage_step take_profit_condition current_funding_condition
      filter_executors
    norm_num [List.filter]
  have hb : get_normalized_funding_rate_in_seconds
      [("binance_perpetual", FundingInfo.mk (3 / 100)),
       ("hyperliquid_perpetual", FundingInfo.mk 0)] "binance_perpetual"
      = 1 / 960000 := by
    norm_num [get_normalized_funding_rate_in_seconds, List.lookup,
      funding_payment_interval_map]
  have hh : get_normalized_funding_rate_in_seconds
      [("binance_perpetual", FundingInfo.mk (3 / 100)),
       ("hyperliquid_perpetual", FundingInfo.mk 0)] "hyperliquid_perpetual"
      = 0 := by
    norm_num [get_normalized_funding_rate_in_seconds, List.lookup,
      funding_payment_interval_map,
      show (("hyperliquid_perpetual" : String) == "binance_perpetual") = false
        by decide,
      show ("hyperliquid_perpetual" : String) ≠ "binance_perpetual" by decide]
  have hg : get_most_profitable_combination
      [("binance_perpetual", FundingInfo.mk (3 / 100)),
       ("hyperliquid_perpetual", FundingInfo.mk 0)]
      = some (Combination.mk "binance_perpetual" "hyperliquid_perpetual"
          TradeType.SELL (9 / 100)) := by
    norm_num [get_most_profitable_combination, allPairs, gmpc_step, hb, hh,
      funding_profitability_interval,
      show ("binance_perpetual" : String) ≠ "hyperliquid_perpetual" by decide,
      show ("hyperliquid_perpetual" : String) ≠ "binance_perpetual" by decide]
    norm_num [abs_of_nonneg, abs_of_nonpos]
  refine ⟨?_, ?_, ?_, ?_, ?_⟩
  · simp only [apply_stop_actions, stop_actions_proposal, List.foldl_cons,
      List.foldl_nil, hstop]
    simp
  · simp only [apply_stop_actions, stop_actions_proposal, List.foldl_cons,
      List.foldl_nil, hstop]
    simp
  · rfl
  · simp [apply_stop_actions, create_actions_proposal]
  · simp only [create_actions_proposal, hg]
    norm_num
    simp

/-- C8, amended: after `stop_actions_proposal` stops an arbitrage, the token
remains in `active_funding_arbitrages` (the source only appends to the
stopped list and never deletes from the active map), so it is never treated
as Idle again during the run: `create_actions_proposal` skips every token
that is in the active map and opens nothing for it. -/
theorem C8_no_reentry_amended :
    (∀ (cfg : FRAConfig) (ex : List ExecutorInfo)
        (reports : String → List (String × FundingInfo)) (s : FRAState),
      ((apply_stop_actions cfg ex reports s).2).active_funding_arbitrages
        = s.active_funding_arbitrages)
    ∧ (∀ (cfg : FRAConfig) (active : List String)
        (report : String → List (String × FundingInfo))
        (mdp : String → FeePrices) (mid : String → String → ℚ)
        (tokens : List String),
      (∀ t ∈ tokens, t ∈ active) →
      create_actions_proposal cfg active report mdp mid tokens
        = Except.ok []) := by
  constructor
  · intro cfg ex reports s
    rfl
  · intro cfg active report mdp mid tokens h
    induction tokens with
    | nil => simp [create_actions_proposal]
    | cons t rest ih =>
      simp only [create_actions_proposal]
      rw [if_pos (h t (List.mem_cons_self t rest))]
      exact ih (fun x hx => h x (List.mem_cons_of_mem t hx))

/-- C8, witness: the amended theorem's no-reentry part at a concrete
one-token state. -/
theorem C8_no_reentry_witness :
    create_actions_proposal (FRAConfig.mk 0 0 0 0 false) ["WIF"]
      (fun _ => []) (fun _ => FeePrices.mk (fun _ _ => 0) (fun _ => 0))
      (fun _ _ => 0) ["WIF"] = Except.ok [] :=
  C8_no_reentry_amended.2 (FRAConfig.mk 0 0 0 0 false) ["WIF"]
    (fun _ => []) (fun _ => FeePrices.mk (fun _ _ => 0) (fun _ => 0))
    (fun _ _ => 0) ["WIF"] (by simp)

theorem mem_allPairs {keys : List String} {a b : String} :
    (a, b) ∈ allPairs keys ↔ a ∈ keys ∧ b ∈ keys := by
  simp [allPairs, List.mem_flatMap, List.mem_map]

theorem gmpc_step_snd_le (report : List (String × FundingInfo))
    (s : Option Combination × ℚ) (pr : String × String) :
    s.2 ≤ (gmpc_step report s pr).2 := by
  simp only [gmpc_step]
  by_cases h1 : pr.1 ≠ pr.2
  · rw [if_pos h1]
    by_cases h2 : |get_normalized_funding_rate_in_seconds report pr.1
          - get_normalized_funding_rate_in_seconds report pr.2|
        * funding_profitability_interval > s.2
    · rw [if_pos h2]
      exact le_of_lt h2
    · rw [if_neg h2]
  · rw [if_neg h1]

theorem gmpc_fold_snd_le (report : List (String × FundingInfo)) :
    ∀ (ps : List (String × String)) (s : Option Combination × ℚ),
      s.2 ≤ (ps.foldl (gmpc_step report) s).2 := by
  intro ps
  induction ps with
  | nil => intro s; exact le_refl _
  | cons pr rest ih =>
    intro s
    rw [List.foldl_cons]
    exact le_trans (gmpc_step_snd_le report s pr) (ih _)

theorem gmpc_fold_bound (report : List (String × FundingInfo)) :
    ∀ (ps : List (String × String)) (s : Option Combination × ℚ)
      (a b : String), (a, b) ∈ ps → a ≠ b →
      |get_normalized_funding_rate_in_seconds report a
          - get_normalized_funding_rate_in_seconds report b|
        * funding_profitability_interval
      ≤ (ps.foldl (gmpc_step report) s).2 := by
  intro ps
  induction ps with
  | nil => intro s a b hmem; exact absurd hmem (List.not_mem_nil _)
  | cons pr rest ih =>
    intro s a b hmem hne
    rcases List.mem_cons.1 hmem with heq | hmem'
    · subst heq
      rw [List.foldl_cons]
      refine le_trans ?_ (gmpc_fold_snd_le report rest _)
      simp only [gmpc_step]
      rw [if_pos hne]
      by_cases h2 : |get_normalized_funding_rate_in_seconds report a
            - get_normalized_funding_rate_in_seconds report b|
          * funding_profitability_interval > s.2
      · rw [if_pos h2]
      · rw [if_neg h2]
        exact le_of_not_lt h2
    · rw [List.foldl_cons]
      exact ih _ a b hmem' hne

theorem gmpc_step_inv (report : List (String × FundingInfo))
    (keys : List String) (s : Option Combination × ℚ) (pr : String × String)
    (hpr : pr.1 ∈ keys ∧ pr.2 ∈ keys) (h : gmpcInv report keys s) :
    gmpcInv report keys (gmpc_step report s pr) := by
  simp only [gmpc_step]
  by_cases h1 : pr.1 ≠ pr.2
  · rw [if_pos h1]
    by_cases h2 : |get_normalized_funding_rate_in_seconds report pr.1
          - get_normalized_funding_rate_in_seconds report pr.2|
        * funding_profitability_interval > s.2
    · rw [if_pos h2]
      constructor
      · intro hc
        simp at hc
      · intro c hc
        simp only [Option.some.injEq] at hc
        subst hc
        have hpos : 0 < |get_normalized_funding_rate_in_seconds report pr.1
              - get_normalized_funding_rate_in_seconds report pr.2|
            * funding_profitability_interval := by
          cases hs : s.1 with
          | none => rw [h.1 hs] at h2; exact h2
          | some c' => exact lt_trans (h.2 c' hs).2.1 h2
        exact ⟨rfl, hpos, hpr.1, hpr.2, h1, rfl, rfl⟩
    · rw [if_neg h2]
      exact h
  · rw [if_neg h1]
    exact h

theorem gmpc_fold_inv (report : List (String × FundingInfo))
    (keys : List String) :
    ∀ (ps : List (String × String)) (s : Option Combination × ℚ),
      (∀ pr ∈ ps, pr.1 ∈ keys ∧ pr.2 ∈ keys) → gmpcInv report keys s →
      gmpcInv report keys (ps.foldl (gmpc_step report) s) := by
  intro ps
  induction ps with
  | nil => intro s _ h; exact h
  | cons pr rest ih =>
    intro s hmem h
    rw [List.foldl_cons]
    exact ih _ (fun q hq => hmem q (List.mem_cons_of_mem pr hq))
      (gmpc_step_inv report keys s pr (hmem pr (List.mem_cons_self pr rest)) h)

/-- C5, counterexample: with two venues whose normalized rates are equal,
every ordered pair's diff is 0, the strict `>` scan never fires, and
`get_most_profitable_combination` returns `None` — not a maximizing pair as
the claim requires for every report. -/
theorem C5_counterexample :
    get_most_profitable_combination
      [("a", FundingInfo.mk 0), ("b", FundingInfo.mk 0)] = none := by
  have ha : get_normalized_funding_rate_in_seconds
      [("a", FundingInfo.mk 0), ("b", FundingInfo.mk 0)] "a" = 0 := by
    simp [get_normalized_funding_rate_in_seconds, List.lookup]
  have hb : get_normalized_funding_rate_in_seconds
      [("a", FundingInfo.mk 0), ("b", FundingInfo.mk 0)] "b" = 0 := by
    simp [get_normalized_funding_rate_in_seconds, List.lookup]
  simp [get_most_profitable_combination, allPairs, gmpc_step, ha, hb]

/-- C5, amended: whenever some ordered pair of distinct venues has a
strictly positive diff, `get_most_profitable_combination` returns a pair
maximizing `|normalized(v1) - normalized(v2)| × funding_profitability_interval`
over all ordered pairs, with side BUY exactly when `normalized(v1) <
normalized(v2)`; when every pair's diff is zero it returns `None` (see the
counterexample).  In particular, for three venues whose rates normalize to
`(1e-6, 3e-6, 2e-6)` per second, the chosen pair is `(v1, v2)` with side
BUY. -/
theorem C5_best_combination_amended :
    (∀ (report : List (String × FundingInfo)),
      (∃ a ∈ report.map Prod.fst, ∃ b ∈ report.map Prod.fst, a ≠ b ∧
        0 < |get_normalized_funding_rate_in_seconds report a
              - get_normalized_funding_rate_in_seconds report b|
            * funding_profitability_interval) →
      ∃ c, get_most_profitable_combination report = some c ∧
        c.connector_1 ∈ report.map Prod.fst ∧
        c.connector_2 ∈ report.map Prod.fst ∧
        c.connector_1 ≠ c.connector_2 ∧
        c.funding_rate_diff
          = |get_normalized_funding_rate_in_seconds report c.connector_1
              - get_normalized_funding_rate_in_seconds report c.connector_2|
            * funding_profitability_interval ∧
        (∀ a ∈ report.map Prod.fst, ∀ b ∈ report.map Prod.fst, a ≠ b →
          |get_normalized_funding_rate_in_seconds report a
              - get_normalized_funding_rate_in_seconds report b|
            * funding_profitability_interval ≤ c.funding_rate_diff) ∧
        c.trade_side
          = (if get_normalized_funding_rate_in_seconds report c.connector_1
                < get_normalized_funding_rate_in_seconds report c.connector_2
              then TradeType.BUY else TradeType.SELL))
    ∧ get_most_profitable_combination
        [("v1", FundingInfo.mk (18 / 625)), ("v2", FundingInfo.mk (54 / 625)),
         ("v3", FundingInfo.mk (36 / 625))]
      = some (Combination.mk "v1" "v2" TradeType.BUY (108 / 625)) := by
  constructor
  · intro report hex
    obtain ⟨a, ha, b, hb, hne, hpos⟩ := hex
    have hinv : gmpcInv report (report.map Prod.fst)
        ((allPairs (report.map Prod.fst)).foldl (gmpc_step report)
          (none, 0)) := by
      refine gmpc_fold_inv report _ _ _ ?_ ?_
      · intro pr hpr
        rcases pr with ⟨x, y⟩
        exact mem_allPairs.mp hpr
      · exact ⟨fun _ => rfl, fun c hc => by simp at hc⟩
    have hbnd := gmpc_fold_bound report (allPairs (report.map Prod.fst))
      (none, 0) a b (mem_allPairs.mpr ⟨ha, hb⟩) hne
    have hfin2 : 0 < ((allPairs (report.map Prod.fst)).foldl
        (gmpc_step report) (none, 0)).2 := lt_of_lt_of_le hpos hbnd
    cases hf : ((allPairs (report.map Prod.fst)).foldl (gmpc_step report)
        (none, 0)).1 with
    | none =>
      rw [hinv.1 hf] at hfin2
      exact absurd hfin2 (lt_irrefl 0)
    | some c =>
      obtain ⟨hde, hp2, hm1, hm2, hne12, hform, hside⟩ := hinv.2 c hf
      refine ⟨c, hf, hm1, hm2, hne12, hform, ?_, hside⟩
      intro x hx y hy hxy
      rw [hde]
      exact gmpc_fold_bound report _ (none, 0) x y
        (mem_allPairs.mpr ⟨hx, hy⟩) hxy
  · have n1 : get_normalized_funding_rate_in_seconds
        [("v1", FundingInfo.mk (18 / 625)), ("v2", FundingInfo.mk (54 / 625)),
         ("v3", FundingInfo.mk (36 / 625))] "v1" = 1 / 1000000 := by
      norm_num [get_normalized_funding_rate_in_seconds, List.lookup,
        funding_payment_interval_map,
        show ("v1" : String) ≠ "binance_perpetual" by decide,
        show ("v1" : String) ≠ "hyperliquid_perpetual" by decide]
    have n2 : get_normalized_funding_rate_in_seconds
        [("v1", FundingInfo.mk (18 / 625)), ("v2", FundingInfo.mk (54 / 625)),
         ("v3", FundingInfo.mk (36 / 625))] "v2" = 3 / 1000000 := by
      norm_num [get_normalized_funding_rate_in_seconds, List.lookup,
        funding_payment_interval_map,
        show (("v2" : String) == "v1") = false by decide,
        show ("v2" : String) ≠ "binance_perpetual" by decide,
        show ("v2" : String) ≠ "hyperliquid_perpetual" by decide]
    have n3 : get_normalized_funding_rate_in_seconds
        [("v1", FundingInfo.mk (18 / 625)), ("v2", FundingInfo.mk (54 / 625)),
         ("v3", FundingInfo.mk (36 / 625))] "v3" = 2 / 1000000 := by
      norm_num [get_normalized_funding_rate_in_seconds, List.lookup,
        funding_payment_interval_map,
        show (("v3" : String) == "v1") = false by decide,
        show (("v3" : String) == "v2") = false by decide,
        show ("v3" : String) ≠ "binance_perpetual" by decide,
        show ("v3" : String) ≠ "hyperliquid_perpetual" by decide]
    norm_num [get_most_profitable_combination, allPairs, gmpc_step, n1, n2, n3,
      funding_profitability_interval,
      show ("v1" : String) ≠ "v2" by decide,
      show ("v1" : String) ≠ "v3" by decide,
      show ("v2" : String) ≠ "v1" by decide,
      show ("v2" : String) ≠ "v3" by decide,
      show ("v3" : String) ≠ "v1" by decide,
      show ("v3" : String) ≠ "v2" by decide]
    norm_num [abs_of_nonneg, abs_of_nonpos]

/-- C5, witness: the amended theorem applied to the three-venue report whose
rates normalize to `(1e-6, 3e-6, 2e-6)` per second. -/
theorem C5_best_combination_witness :
    ∃ c, get_most_profitable_combination
        [("v1", FundingInfo.mk (18 / 625)), ("v2", FundingInfo.mk (54 / 625)),
         ("v3", FundingInfo.mk (36 / 625))] = some c ∧
      c.connector_1 ∈ ([("v1", FundingInfo.mk (18 / 625)),
          ("v2", FundingInfo.mk (54 / 625)),
          ("v3", FundingInfo.mk (36 / 625))].map Prod.fst) ∧
      c.connector_2 ∈ ([("v1", FundingInfo.mk (18 / 625)),
          ("v2", FundingInfo.mk (54 / 625)),
          ("v3", FundingInfo.mk (36 / 625))].map Prod.fst) ∧
      c.connector_1 ≠ c.connector_2 ∧
      c.funding_rate_diff
        = |get_normalized_funding_rate_in_seconds
              [("v1", FundingInfo.mk (18 / 625)),
               ("v2", FundingInfo.mk (54 / 625)),
               ("v3", FundingInfo.mk (36 / 625))] c.connector_1
            - get_normalized_funding_rate_in_seconds
              [("v1", FundingInfo.mk (18 / 625)),
               ("v2", FundingInfo.mk (54 / 625)),
               ("v3", FundingInfo.mk (36 / 625))] c.connector_2|
          * funding_profitability_interval ∧
      (∀ a ∈ ([("v1", FundingInfo.mk (18 / 625)),
          ("v2", FundingInfo.mk (54 / 625)),
          ("v3", FundingInfo.mk (36 / 625))].map Prod.fst),
        ∀ b ∈ ([("v1", FundingInfo.mk (18 / 625)),
          ("v2", FundingInfo.mk (54 / 625)),
          ("v3", FundingInfo.mk (36 / 625))].map Prod.fst), a ≠ b →
        |get_normalized_funding_rate_in_seconds
              [("v1", FundingInfo.mk (18 / 625)),
               ("v2", FundingInfo.mk (54 / 625)),
               ("v3", FundingInfo.mk (36 / 625))] a
            - get_normalized_funding_rate_in_seconds
              [("v1", FundingInfo.mk (18 / 625)),
               ("v2", FundingInfo.mk (54 / 625)),
               ("v3", FundingInfo.mk (36 / 625))] b|
          * funding_profitability_interval ≤ c.funding_rate_diff) ∧
      c.trade_side
        = (if get_normalized_funding_rate_in_seconds
                [("v1", FundingInfo.mk (18 / 625)),
                 ("v2", FundingInfo.mk (54 / 625)),
                 ("v3", FundingInfo.mk (36 / 625))] c.connector_1
              < get_normalized_funding_rate_in_seconds
                [("v1", FundingInfo.mk (18 / 625)),
                 ("v2", FundingInfo.mk (54 / 625)),
                 ("v3", FundingInfo.mk (36 / 625))] c.connector_2
            then TradeType.BUY else TradeType.SELL) := by
  refine C5_best_combination_amended.1
    [("v1", FundingInfo.mk (18 / 625)), ("v2", FundingInfo.mk (54 / 625)),
     ("v3", FundingInfo.mk (36 / 625))]
    ⟨"v1", by simp, "v2", by simp, by decide, ?_⟩
  have n1 : get_normalized_funding_rate_in_seconds
      [("v1", FundingInfo.mk (18 / 625)), ("v2", FundingInfo.mk (54 / 625)),
       ("v3", FundingInfo.mk (36 / 625))] "v1" = 1 / 1000000 := by
    norm_num [get_normalized_funding_rate_in_seconds, List.lookup,
      funding_payment_interval_map,
      show ("v1" : String) ≠ "binance_perpetual" by decide,
      show ("v1" : String) ≠ "hyperliquid_perpetual" by decide]
  have n2 : get_normalized_funding_rate_in_seconds
      [("v1", FundingInfo.mk (18 / 625)), ("v2", FundingInfo.mk (54 / 625)),
       ("v3", FundingInfo.mk (36 / 625))] "v2" = 3 / 1000000 := by
    norm_num [get_normalized_funding_rate_in_seconds, List.lookup,
      funding_payment_interval_map,
      show (("v2" : String) == "v1") = false by decide,
      show ("v2" : String) ≠ "binance_perpetual" by decide,
      show ("v2" : String) ≠ "hyperliquid_perpetual" by decide]
  rw [n1, n2, funding_profitability_interval]
  norm_num [abs_of_nonpos]

theorem is_within_tolerance_iff (tol : ℚ) (cur : List LimitOrder)
    (p : Proposal) :
    is_within_tolerance tol cur p = true ↔ within_tolerance_spec tol cur p := by
  unfold is_within_tolerance within_tolerance_spec
  cases hb : cur.filter (fun o => o.is_buy) with
  | nil =>
    cases hs : cur.filter (fun o => !o.is_buy) with
    | nil => simp [tolViolated]
    | cons o os =>
      simp [tolViolated, not_lt, not_le, and_comm]
  | cons ob obs =>
    cases hs : cur.filter (fun o => !o.is_buy) with
    | nil =>
      simp [tolViolated, not_lt, not_le, and_comm]
    | cons o os =>
      simp only [tolViolated, List.isEmpty_cons, Bool.not_false, Bool.true_and,
        Bool.or_eq_true, Bool.and_eq_true, decide_eq_true_eq, List.head?_cons,
        Option.mem_def, Option.some.injEq, forall_eq']
      by_cases h1 : p.buy.size ≤ 0
      · simp [h1]
      · by_cases h2 : p.sell.size ≤ 0
        · simp [h1, h2]
        · simp [h1, h2, not_lt, not_le]
          by_cases h3 : |p.buy.price - ob.price| / ob.price > tol
          · simp [h3, not_le.mp h1]
          · by_cases h4 : |p.sell.price - o.price| / o.price > tol
            · simp [h3, h4, not_le.mp h1, not_le.mp h2]
            · simp [h3, h4, not_le.mp h1, not_le.mp h2, not_lt.mp h3,
                not_lt.mp h4]

/-- Point update of the refresh map leaves other markets alone. -/
theorem foldl_refresh_other (now : ℚ) (m : String) :
    ∀ (orders : List LimitOrder) (rt : String → ℚ),
      (∀ o ∈ orders, o.trading_pair ≠ m) →
      (orders.foldl
        (fun rt o => fun mk => if mk = o.trading_pair then now + 1/10 else rt mk)
        rt) m = rt m := by
  intro orders
  induction orders with
  | nil => intro rt _; rfl
  | cons o rest ih =>
    intro rt h
    rw [List.foldl_cons]
    rw [ih _ (fun q hq => h q (List.mem_cons_of_mem o hq))]
    rw [if_neg (fun hc => h o (List.mem_cons_self o rest) hc.symm)]

/-- Point update of the refresh map stamps the market of the cancelled
orders. -/
theorem foldl_refresh_self (now : ℚ) (m : String) :
    ∀ (orders : List LimitOrder) (rt : String → ℚ),
      orders ≠ [] → (∀ o ∈ orders, o.trading_pair = m) →
      (orders.foldl
        (fun rt o => fun mk => if mk = o.trading_pair then now + 1/10 else rt mk)
        rt) m = now + 1/10 := by
  intro orders
  induction orders with
  | nil => intro rt h; exact absurd rfl h
  | cons o rest ih =>
    intro rt _ h
    rw [List.foldl_cons]
    cases hrest : rest with
    | nil =>
      simp only [hrest, List.foldl_nil]
      rw [if_pos (h o (List.mem_cons_self o rest)).symm]
    | cons o2 rest2 =>
      rw [← hrest]
      exact ih _ (by simp [hrest]) (fun q hq => h q (List.mem_cons_of_mem o hq))

theorem if_chain_or (a b : Bool) :
    (if a then true else if b then true else false) = (a || b) := by
  cases a <;> cases b <;> rfl

/-- One `cancel_body` step leaves every other market's refresh time and
cancelled orders unchanged. -/
theorem cancel_body_other (tol ma now : ℚ) (active : List LimitOrder)
    (s : CancelState) (q : Proposal) (m : String) (hne : q.market ≠ m) :
    (cancel_body tol ma now active s q).refresh_times m = s.refresh_times m
    ∧ (cancel_body tol ma now active s q).cancelled.filter
        (fun o => o.trading_pair = m)
      = s.cancelled.filter (fun o => o.trading_pair = m) := by
  simp only [cancel_body]
  have hmem : ∀ o ∈ active.filter (fun o => o.trading_pair = q.market),
      o.trading_pair ≠ m := by
    intro o ho
    have h2 := (List.mem_filter.mp ho).2
    simp only [decide_eq_true_eq] at h2
    rw [h2]
    exact hne
  have hnil : (active.filter (fun o => o.trading_pair = q.market)).filter
      (fun o => o.trading_pair = m) = [] := by
    rw [List.filter_eq_nil_iff]
    intro o ho
    simp [hmem o ho]
  split_ifs <;>
    first
      | exact ⟨rfl, rfl⟩
      | exact ⟨foldl_refresh_other now m _ s.refresh_times hmem,
          by rw [List.filter_append, hnil, List.append_nil]⟩

/-- The `cancel_body` step on its own proposal's market: all the market's
live orders are cancelled, and its refresh time stamped `now + 0.1`, exactly
when the age condition or the refresh-due-and-out-of-tolerance condition
holds. -/
theorem cancel_body_self (tol ma now : ℚ) (active : List LimitOrder)
    (s : CancelState) (p : Proposal) :
    ((((∃ o ∈ active.filter (fun o => o.trading_pair = p.market),
          order_age o now > ma)
        ∨ (s.refresh_times p.market ≤ now
            ∧ active.filter (fun o => o.trading_pair = p.market) ≠ []
            ∧ ¬ within_tolerance_spec tol
                (active.filter (fun o => o.trading_pair = p.market)) p))) →
      ((cancel_body tol ma now active s p).refresh_times p.market = now + 1/10
      ∧ (cancel_body tol ma now active s p).cancelled
          = s.cancelled ++ active.filter (fun o => o.trading_pair = p.market)))
    ∧ (¬ (((∃ o ∈ active.filter (fun o => o.trading_pair = p.market),
          order_age o now > ma)
        ∨ (s.refresh_times p.market ≤ now
            ∧ active.filter (fun o => o.trading_pair = p.market) ≠ []
            ∧ ¬ within_tolerance_spec tol
                (active.filter (fun o => o.trading_pair = p.market)) p))) →
      cancel_body tol ma now active s p = s) := by
  have hpair : ∀ o ∈ active.filter (fun o => o.trading_pair = p.market),
      o.trading_pair = p.market := by
    intro o ho
    have h2 := (List.mem_filter.mp ho).2
    simpa using h2
  have hc1 : ((!(active.filter (fun o => o.trading_pair = p.market)).isEmpty
        && (active.filter (fun o => o.trading_pair = p.market)).any
            (fun o => decide (order_age o now > ma))) = true)
      ↔ (∃ o ∈ active.filter (fun o => o.trading_pair = p.market),
          order_age o now > ma) := by
    simp only [Bool.and_eq_true, List.any_eq_true, decide_eq_true_eq]
    constructor
    · rintro ⟨_, o, ho, hage⟩
      exact ⟨o, ho, hage⟩
    · rintro ⟨o, ho, hage⟩
      refine ⟨?_, o, ho, hage⟩
      simp [List.ne_nil_of_mem ho]
  have hc2 : ((decide (s.refresh_times p.market ≤ now)
        && !(active.filter (fun o => o.trading_pair = p.market)).isEmpty
        && !is_within_tolerance tol
            (active.filter (fun o => o.trading_pair = p.market)) p) = true)
      ↔ (s.refresh_times p.market ≤ now
          ∧ active.filter (fun o => o.trading_pair = p.market) ≠ []
          ∧ ¬ within_tolerance_spec tol
              (active.filter (fun o => o.trading_pair = p.market)) p) := by
    simp only [Bool.and_eq_true, decide_eq_true_eq, Bool.not_eq_true',
      and_assoc]
    rw [← is_within_tolerance_iff]
    simp [List.isEmpty_iff, Bool.not_eq_true]
  constructor
  · intro hD
    simp only [cancel_body]
    rw [if_chain_or, if_pos (by
      rw [Bool.or_eq_true, hc1, hc2]
      exact hD)]
    have hne : active.filter (fun o => o.trading_pair = p.market) ≠ [] := by
      rcases hD with ⟨o, ho, _⟩ | ⟨_, hne, _⟩
      · exact List.ne_nil_of_mem ho
      · exact hne
    exact ⟨foldl_refresh_self now p.market _ s.refresh_times hne hpair, rfl⟩
  · intro hD
    simp only [cancel_body]
    rw [if_chain_or, if_neg (by
      rw [Bool.or_eq_true, hc1, hc2]
      exact hD)]

/-- Folding `cancel_body` over proposals of other markets leaves a market's
refresh time and cancelled set unchanged. -/
theorem cancel_fold_other (tol ma now : ℚ) (active : List LimitOrder)
    (m : String) :
    ∀ (props : List Proposal) (s : CancelState),
      (∀ q ∈ props, q.market ≠ m) →
      ((props.foldl (cancel_body tol ma now active) s).refresh_times m
          = s.refresh_times m
      ∧ (props.foldl (cancel_body tol ma now active) s).cancelled.filter
          (fun o => o.trading_pair = m)
        = s.cancelled.filter (fun o => o.trading_pair = m)) := by
  intro props
  induction props with
  | nil => intro s _; exact ⟨rfl, rfl⟩
  | cons q rest ih =>
    intro s h
    rw [List.foldl_cons]
    have hq := cancel_body_other tol ma now active s q m
      (h q (List.mem_cons_self q rest))
    have hr := ih (cancel_body tol ma now active s q)
      (fun x hx => h x (List.mem_cons_of_mem q hx))
    exact ⟨hr.1.trans hq.1, hr.2.trans hq.2⟩

/-- C4: `cancel_active_orders` cancels all of a proposal's market's live
orders exactly when some live order's age exceeds `max_order_age` — even
within tolerance — or the refresh time has passed and the proposal is out
of tolerance, where within-tolerance means each side with a live order has
proposed size > 0 and relative price change at most
`order_refresh_tolerance_pct`; on cancellation `refresh_times[market]`
becomes `now + 0.1`, otherwise nothing on that market is cancelled and its
refresh time is unchanged. -/
theorem C4_cancel_exactly_when :
    ∀ (tol ma now : ℚ) (active : List LimitOrder)
      (proposals : List Proposal) (refresh0 : String → ℚ) (p : Proposal),
      (proposals.map Proposal.market).Nodup → p ∈ proposals →
      ((((∃ o ∈ active.filter (fun o => o.trading_pair = p.market),
            order_age o now > ma)
          ∨ (now ≥ refresh0 p.market
              ∧ active.filter (fun o => o.trading_pair = p.market) ≠ []
              ∧ ¬ within_tolerance_spec tol
                  (active.filter (fun o => o.trading_pair = p.market)) p)) →
        ((cancel_active_orders tol ma now active proposals
              refresh0).cancelled.filter (fun o => o.trading_pair = p.market)
            = active.filter (fun o => o.trading_pair = p.market)
          ∧ (cancel_active_orders tol ma now active proposals
              refresh0).refresh_times p.market = now + 1/10))
      ∧ (¬ ((∃ o ∈ active.filter (fun o => o.trading_pair = p.market),
            order_age o now > ma)
          ∨ (now ≥ refresh0 p.market
              ∧ active.filter (fun o => o.trading_pair = p.market) ≠ []
              ∧ ¬ within_tolerance_spec tol
                  (active.filter (fun o => o.trading_pair = p.market)) p)) →
        ((cancel_active_orders tol ma now active proposals
              refresh0).cancelled.filter (fun o => o.trading_pair = p.market)
            = []
          ∧ (cancel_active_orders tol ma now active proposals
              refresh0).refresh_times p.market = refresh0 p.market))) := by
  intro tol ma now active proposals refresh0 p hnd hp
  obtain ⟨l1, l2, rfl⟩ := List.append_of_mem hp
  have hmap : (l1.map Proposal.market
      ++ p.market :: l2.map Proposal.market).Nodup := by
    simpa using hnd
  have hnotmem : p.market ∉ l1.map Proposal.market ++ l2.map Proposal.market :=
    (List.nodup_cons.mp (List.nodup_middle.mp hmap)).1
  have h1 : ∀ q ∈ l1, q.market ≠ p.market := by
    intro q hq heq
    exact hnotmem (List.mem_append_left _ (heq ▸ List.mem_map_of_mem _ hq))
  have h2 : ∀ q ∈ l2, q.market ≠ p.market := by
    intro q hq heq
    exact hnotmem (List.mem_append_right _ (heq ▸ List.mem_map_of_mem _ hq))
  unfold cancel_active_orders
  rw [List.foldl_append, List.foldl_cons]
  have hs1 := cancel_fold_other tol ma now active p.market l1
    (CancelState.mk refresh0 []) h1
  have hbody := cancel_body_self tol ma now active
    (l1.foldl (cancel_body tol ma now active) (CancelState.mk refresh0 [])) p
  have hcurfix : (active.filter (fun o => o.trading_pair = p.market)).filter
      (fun o => o.trading_pair = p.market)
      = active.filter (fun o => o.trading_pair = p.market) :=
    List.filter_eq_self.mpr (fun o ho => (List.mem_filter.mp ho).2)
  constructor
  · intro hD
    have hD' : (∃ o ∈ active.filter (fun o => o.trading_pair = p.market),
        order_age o now > ma)
      ∨ ((l1.foldl (cancel_body tol ma now active)
            (CancelState.mk refresh0 [])).refresh_times p.market ≤ now
          ∧ active.filter (fun o => o.trading_pair = p.market) ≠ []
          ∧ ¬ within_tolerance_spec tol
              (active.filter (fun o => o.trading_pair = p.market)) p) := by
      rcases hD with h | ⟨ha, hb, hc⟩
      · exact Or.inl h
      · exact Or.inr ⟨by rw [hs1.1]; exact ha, hb, hc⟩
    obtain ⟨hrt, hcanc⟩ := hbody.1 hD'
    have hs2 := cancel_fold_other tol ma now active p.market l2
      (cancel_body tol ma now active
        (l1.foldl (cancel_body tol ma now active) (CancelState.mk refresh0 []))
        p) h2
    constructor
    · rw [hs2.2, hcanc, List.filter_append, hs1.2]
      simp [hcurfix]
    · rw [hs2.1, hrt]
  · intro hD
    have hD' : ¬ ((∃ o ∈ active.filter (fun o => o.trading_pair = p.market),
        order_age o now > ma)
      ∨ ((l1.foldl (cancel_body tol ma now active)
            (CancelState.mk refresh0 [])).refresh_times p.market ≤ now
          ∧ active.filter (fun o => o.trading_pair = p.market) ≠ []
          ∧ ¬ within_tolerance_spec tol
              (active.filter (fun o => o.trading_pair = p.market)) p)) := by
      intro hcontra
      apply hD
      rcases hcontra with h | ⟨ha, hb, hc⟩
      · exact Or.inl h
      · refine Or.inr ⟨?_, hb, hc⟩
        rw [hs1.1] at ha
        exact ha
    have hbody2 := hbody.2 hD'
    rw [hbody2]
    have hs2 := cancel_fold_other tol ma now active p.market l2
      (l1.foldl (cancel_body tol ma now active) (CancelState.mk refresh0 []))
      h2
    constructor
    · rw [hs2.2, hs1.2]
      simp
    · rw [hs2.1, hs1.1]

/-- C4, witness: one live buy order of age 400 > `max_order_age = 360` on
market `M` is cancelled (even though the proposal is within tolerance), and
the refresh time is stamped `now + 0.1`. -/
theorem C4_cancel_exactly_when_witness :
    (cancel_active_orders (2/10) 360 400
        [LimitOrder.mk "M" true 100 1 0]
        [Proposal.mk "M" (PriceSize.mk 100 1) (PriceSize.mk 101 1)]
        (fun _ => 1000)).cancelled.filter (fun o => o.trading_pair = "M")
      = [LimitOrder.mk "M" true 100 1 0].filter (fun o => o.trading_pair = "M")
    ∧ (cancel_active_orders (2/10) 360 400
        [LimitOrder.mk "M" true 100 1 0]
        [Proposal.mk "M" (PriceSize.mk 100 1) (PriceSize.mk 101 1)]
        (fun _ => 1000)).refresh_times "M" = 400 + 1/10 :=
  C4_cancel_exactly_when (2/10) 360 400
    [LimitOrder.mk "M" true 100 1 0]
    [Proposal.mk "M" (PriceSize.mk 100 1) (PriceSize.mk 101 1)]
    (fun _ => 1000) (Proposal.mk "M" (PriceSize.mk 100 1) (PriceSize.mk 101 1))
    (by simp) (by simp)
    |>.1 (Or.inl ⟨LimitOrder.mk "M" true 100 1 0, by simp [order_age],
      by norm_num [order_age]⟩)

/-- C10, witness: a BUY fill of amount 2 at price 50 on `ETH-USDT` moves
the budgets by −100 and +2. -/
theorem C10_fill_updates_budgets_witness :
    (did_fill_order (Budgets.mk (fun _ => 1000) (fun _ => 5))
        (OrderFilledEvt.mk "ETH-USDT" TradeType.BUY 2 50)).buy_budgets "ETH-USDT"
      = 1000 - 2 * 50
    ∧ (did_fill_order (Budgets.mk (fun _ => 1000) (fun _ => 5))
        (OrderFilledEvt.mk "ETH-USDT" TradeType.BUY 2 50)).sell_budgets "ETH-USDT"
      = 5 + 2 :=
  (C10_fill_updates_budgets (Budgets.mk (fun _ => 1000) (fun _ => 5))
    (OrderFilledEvt.mk "ETH-USDT" TradeType.BUY 2 50)).1 rfl

end HB
